import Mathlib

/-!
Verification of the puzzle-grid engine of the Uutispeli headline puzzle
(`src/scripts2.js` and the hint-enabled variant).

Strings are modelled as `List Char`; a grid cell (a one-element JS array
holding a character) is modelled as a `Char`; a grid is a `List (List Char)`.
JS `undefined`-producing accesses are modelled either with `Option` (where a
`TypeError` would be thrown) or with `List.getD` defaults chosen to mimic the
behaviour of `undefined` in the comparison at hand; each such spot is noted.
`Math.round(startIndex + headline.length / numRows)` is computed in exact
integer arithmetic: for row counts 2 and 4 the JS double is exact, and for 3
the fractional part of the exact value is 0, 1/3 or 2/3, never within double
rounding error of the 1/2 tie, so the float and the exact value round alike.
-/

namespace Uutispeli

/-- `PLAYFIELD_ROWS` from the configuration section of `scripts2.js`. -/
def PLAYFIELD_ROWS : Nat := 4

/-- JS `toLowerCase` restricted to the alphabets the game uses: ASCII letters
plus the Finnish letters Ä, Ö, Å (other characters are returned unchanged,
as JS does for non-letters). -/
def jsToLower (c : Char) : Char :=
  if c = 'Ä' then 'ä'
  else if c = 'Ö' then 'ö'
  else if c = 'Å' then 'å'
  else c.toLower

/-- The vowel string `'aeiouyäö'` of `splitFinnishSyllables`. -/
def vowels : List Char := ['a', 'e', 'i', 'o', 'u', 'y', 'ä', 'ö']

/-- The consonant string `'bcdfghjklmnpqrstvwxz'` of `splitFinnishSyllables`. -/
def consonants : List Char :=
  ['b', 'c', 'd', 'f', 'g', 'h', 'j', 'k', 'l', 'm', 'n', 'p', 'q', 'r', 's',
   't', 'v', 'w', 'x', 'z']

/-- The diphthong table of `splitFinnishSyllables`, as character pairs. -/
def diphthongs : List (Char × Char) :=
  [('a', 'i'), ('e', 'i'), ('o', 'i'), ('u', 'i'), ('y', 'i'), ('ä', 'i'),
   ('ö', 'i'), ('a', 'u'), ('e', 'u'), ('o', 'u'), ('i', 'u'), ('e', 'y'),
   ('ä', 'y'), ('ö', 'y'), ('i', 'e'), ('u', 'o'), ('y', 'ö')]

/-- The consonant-cluster table of `splitFinnishSyllables`, as pairs. -/
def clusters : List (Char × Char) :=
  [('c', 'h'), ('s', 'h'), ('t', 'h'), ('k', 'h'), ('k', 's'), ('s', 't'),
   ('s', 'k'), ('s', 'p'), ('t', 'r'), ('k', 'r'), ('p', 'r'), ('p', 'l'),
   ('k', 'l')]

/-- Membership in the vowel set (`vowels.includes(char)`). -/
def isVowel (c : Char) : Bool := vowels.contains c

/-- Membership in the consonant set (`consonants.includes(char)`). -/
def isConsonant (c : Char) : Bool := consonants.contains c

/-- The character-by-character loop of `splitFinnishSyllables`.  The arguments
are the remaining characters, the syllable accumulated so far
(`currentSyllable`), and the current index `i` (only its positivity is
consulted, by the consonant-cluster branch).  At each character the loop first
appends it to the current syllable and then, when a next character exists,
decides whether a syllable boundary follows, looking one or two characters
ahead; `nextNextChar` is `''` at the end of the word in JS, which fails every
`includes` test, modelled by the `Option.elim` below. -/
def splitGo : List Char → List Char → Nat → List (List Char)
  | [], cur, _ => if cur.isEmpty then [] else [cur]
  | [c], cur, _ =>
    if (cur ++ [c]).isEmpty then [] else [cur ++ [c]]
  | c :: next :: rest2, cur, i =>
    let cur2 := cur ++ [c]
    let nnVowel : Bool := (rest2.head?.elim false fun nn => isVowel nn)
    if isVowel c && isVowel next then
      if diphthongs.contains (c, next) then splitGo (next :: rest2) cur2 (i + 1)
      else cur2 :: splitGo (next :: rest2) [] (i + 1)
    else if isVowel c && isConsonant next then
      if nnVowel then cur2 :: splitGo (next :: rest2) [] (i + 1)
      else splitGo (next :: rest2) cur2 (i + 1)
    else if isConsonant c && isConsonant next then
      if decide (0 < i) && !(clusters.contains (c, next)) then
        cur2 :: splitGo (next :: rest2) [] (i + 1)
      else splitGo (next :: rest2) cur2 (i + 1)
    else splitGo (next :: rest2) cur2 (i + 1)

/-- `splitFinnishSyllables`: lowercase the word, run the boundary scan, and
fall back to the (lowercased) whole word if the scan produced nothing. -/
def splitFinnishSyllables (word : List Char) : List (List Char) :=
  let w := word.map jsToLower
  let syllables := splitGo w [] 0
  if syllables.isEmpty then [w] else syllables

/-- The concatenation of the fragments produced by `splitGo` is the pending
accumulator followed by the remaining input. -/
theorem splitGo_flatten (w : List Char) : ∀ (cur : List Char) (i : Nat),
    (splitGo w cur i).flatten = cur ++ w := by
  induction w with
  | nil =>
    intro cur i
    by_cases h : cur.isEmpty
    · simp [splitGo, h, List.isEmpty_iff.mp h]
    · simp [splitGo, h]
  | cons c rest ih =>
    intro cur i
    cases rest with
    | nil =>
      have hne : ¬(cur ++ [c]).isEmpty := by simp
      simp [splitGo, hne]
    | cons next rest2 =>
      rw [splitGo]
      split
      · split
        · rw [ih]; simp
        · simp only [List.flatten_cons, ih]; simp
      · split
        · split
          · simp only [List.flatten_cons, ih]; simp
          · rw [ih]; simp
        · split
          · split
            · simp only [List.flatten_cons, ih]; simp
            · rw [ih]; simp
          · rw [ih]; simp

/-- A nonempty input makes `splitGo` return at least one fragment. -/
theorem splitGo_ne_nil (c : Char) (w : List Char) (cur : List Char) (i : Nat) :
    splitGo (c :: w) cur i ≠ [] := by
  intro hnil
  have h := splitGo_flatten (c :: w) cur i
  rw [hnil] at h
  simp at h

/-- The fragments of `splitFinnishSyllables` concatenate to the lowercased
input. -/
theorem splitFinnishSyllables_flatten (w : List Char) :
    (splitFinnishSyllables w).flatten = w.map jsToLower := by
  by_cases hemp : (splitGo (w.map jsToLower) [] 0).isEmpty
  · simp [splitFinnishSyllables, hemp]
  · simp [splitFinnishSyllables, hemp, splitGo_flatten]

/-- C9 (corrected): the syllable splitter on a non-empty word returns a
non-empty fragment sequence whose concatenation is the LOWERCASED input word
(`splitFinnishSyllables` lowercases first); for a word that is already
lowercase this is the word itself. -/
theorem C9_splitFinnishSyllables_correct (w : List Char) (h : w ≠ []) :
    splitFinnishSyllables w ≠ [] ∧
      (splitFinnishSyllables w).flatten = w.map jsToLower ∧
      ((∀ c ∈ w, jsToLower c = c) →
        (splitFinnishSyllables w).flatten = w) := by
  refine ⟨?_, splitFinnishSyllables_flatten w, ?_⟩
  · intro hnil
    have := splitFinnishSyllables_flatten w
    rw [hnil] at this
    cases w with
    | nil => exact h rfl
    | cons c rest => simp at this
  · intro hlow
    rw [splitFinnishSyllables_flatten w]
    exact List.map_congr_left hlow |>.trans (List.map_id w)

/-- Witness for C9 at the concrete word "kissa". -/
theorem C9_splitFinnishSyllables_correct_witness :
    splitFinnishSyllables ['k', 'i', 's', 's', 'a'] ≠ [] ∧
      (splitFinnishSyllables ['k', 'i', 's', 's', 'a']).flatten =
        ['k', 'i', 's', 's', 'a'].map jsToLower ∧
      ((∀ c ∈ ['k', 'i', 's', 's', 'a'], jsToLower c = c) →
        (splitFinnishSyllables ['k', 'i', 's', 's', 'a']).flatten =
          ['k', 'i', 's', 's', 'a']) :=
  C9_splitFinnishSyllables_correct ['k', 'i', 's', 's', 'a'] (by decide)

/-- C9 counterexample: on the upper-case word "A" the fragments concatenate to
the lowercase "a", not to the input word, so the concatenation does not equal
the input "regardless of the input's letter case". -/
theorem C9_case_counterexample :
    (splitFinnishSyllables ['A']).flatten = ['a'] ∧ ('a' :: []) ≠ ('A' :: []) := by
  constructor
  · rfl
  · decide

/-! ## Column rotation (`moveColumn`, `shuffleBoard` inner loop) -/

/-- A game grid: a list of rows, each a list of characters (each JS cell is a
one-element array holding one character). -/
abbrev Grid := List (List Char)

/-- The JS shift normalization `((shift % numRows) + numRows) % numRows`,
where `%` is the JS remainder operator (truncated division, `Int.tmod`).  For
a positive row count the result is the Euclidean remainder in `[0, numRows)`. -/
def jsNormShift (shift : Int) (numRows : Nat) : Nat :=
  (((shift.tmod numRows) + numRows).tmod numRows).toNat

/-- `columnValues.slice(-shift).concat(columnValues.slice(0, -shift))` for a
normalized shift `0 ≤ s < v.length`: the column rotated downward by `s`.
(For `s = 0`, JS `slice(-0) ++ slice(0, -0)` is the whole list followed by the
empty list; `drop (n - 0) ++ take (n - 0)` is the empty list followed by the
whole list — the same list.) -/
def rotateDown (v : List Char) (s : Nat) : List Char :=
  v.drop (v.length - s) ++ v.take (v.length - s)

/-- `grid.map(row => row[colIndex][0])`: the extracted column values.  The
default is never consulted when the column index is in range for every row. -/
def columnOf (grid : Grid) (colIndex : Nat) : List Char :=
  grid.map (fun row => row.getD colIndex ' ')

/-- The write-back loop `for (r...) grid[r][colIndex][0] = rotated[r]`. -/
def writeColumn (grid : Grid) (colIndex : Nat) (vals : List Char) : Grid :=
  List.zipWith (fun row v => row.set colIndex v) grid vals

/-- `moveColumn` of `scripts2.js`: extract the column, normalize the shift,
rotate, and write the rotated values back.  JS indexes `row[colIndex][0]`
without a bounds check; when some row lacks `colIndex` this throws a
`TypeError`, modelled as `none`.  (Rendering and the win re-check mutate no
grid state.) -/
def moveColumn (grid : Grid) (colIndex : Nat) (shift : Int) : Option Grid :=
  if grid.all (fun row => colIndex < row.length) then
    some (writeColumn grid colIndex
      (rotateDown (columnOf grid colIndex) (jsNormShift shift grid.length)))
  else none

theorem rotateDown_length (v : List Char) (s : Nat) :
    (rotateDown v s).length = v.length := by
  simp [rotateDown]

theorem rotateDown_eq_rotate (v : List Char) (s : Nat) :
    rotateDown v s = v.rotate (v.length - s) :=
  (List.rotate_eq_drop_append_take (by omega)).symm

theorem rotateDown_zero (v : List Char) : rotateDown v 0 = v := by
  simp [rotateDown]

/-- Rotating down by `s₁` and then by `s₂` with `s₁ + s₂ ≡ 0` modulo the
length restores the list. -/
theorem rotateDown_rotateDown (v : List Char) (s1 s2 : Nat)
    (h1 : s1 ≤ v.length) (h2 : s2 ≤ v.length)
    (hsum : (s1 + s2) % v.length = 0) :
    rotateDown (rotateDown v s1) s2 = v := by
  rcases Nat.eq_zero_or_pos v.length with hlen | hlen
  · rw [List.length_eq_zero.mp hlen]
    simp [rotateDown]
  · rw [rotateDown_eq_rotate, rotateDown_eq_rotate, List.length_rotate,
      List.rotate_rotate]
    obtain ⟨k, hk⟩ := Nat.dvd_of_mod_eq_zero hsum
    have hkle : k ≤ 2 := by
      by_contra hgt
      push_neg at hgt
      have h3 : v.length * 3 ≤ v.length * k := Nat.mul_le_mul_left _ (by omega)
      omega
    interval_cases k
    · have harg : v.length - s1 + (v.length - s2) = v.length * 2 := by omega
      rw [harg, List.rotate_length_mul]
    · have harg : v.length - s1 + (v.length - s2) = v.length * 1 := by omega
      rw [harg, List.rotate_length_mul]
    · have harg : v.length - s1 + (v.length - s2) = v.length * 0 := by omega
      rw [harg, List.rotate_length_mul]

theorem writeColumn_length (g : Grid) (c : Nat) (vals : List Char) :
    (writeColumn g c vals).length = min g.length vals.length := by
  simp [writeColumn]

/-- Extracting the column just written yields the written values, provided
the column index is in range for every row and the value list matches the
grid height. -/
theorem columnOf_writeColumn (c : Nat) :
    ∀ (g : Grid) (vals : List Char), (∀ row ∈ g, c < row.length) →
      vals.length = g.length → columnOf (writeColumn g c vals) c = vals := by
  intro g
  induction g with
  | nil =>
    intro vals _ hlen
    rw [List.length_nil] at hlen
    rw [List.length_eq_zero.mp hlen]
    rfl
  | cons row rows ih =>
    intro vals hmem hlen
    cases vals with
    | nil => simp at hlen
    | cons v vs =>
      have hc : c < row.length := hmem row (by simp)
      simp only [writeColumn, List.zipWith_cons_cons, columnOf, List.map_cons]
      have hv : (row.set c v).getD c ' ' = v := by
        rw [List.getD_eq_getElem _ _ (by simp [hc])]
        exact List.getElem_set_self (by simp [hc])
      rw [hv]
      have := ih vs (fun r hr => hmem r (by simp [hr])) (by simpa using hlen)
      simpa [columnOf, writeColumn] using this

/-- Writing a column twice keeps only the second write. -/
theorem writeColumn_writeColumn (c : Nat) :
    ∀ (g : Grid) (vals vals2 : List Char), vals.length = g.length →
      writeColumn (writeColumn g c vals) c vals2 = writeColumn g c vals2 := by
  intro g
  induction g with
  | nil => intro vals vals2 _; cases vals <;> cases vals2 <;> rfl
  | cons row rows ih =>
    intro vals vals2 hlen
    cases vals with
    | nil => simp at hlen
    | cons v vs =>
      cases vals2 with
      | nil => rfl
      | cons w ws =>
        simp only [writeColumn, List.zipWith_cons_cons, List.set_set]
        have := ih vs ws (by simpa using hlen)
        simpa [writeColumn] using this

/-- Setting an index to the element already there is the identity. -/
theorem set_getElem_self_eq (l : List Char) (i : Nat) (h : i < l.length) :
    l.set i l[i] = l := by
  apply List.ext_getElem (by simp)
  intro n h1 h2
  rw [List.getElem_set]
  split
  · next heq => cases heq; rfl
  · rfl

/-- Writing back the column that was just extracted is the identity. -/
theorem writeColumn_columnOf_self (c : Nat) :
    ∀ (g : Grid), (∀ row ∈ g, c < row.length) →
      writeColumn g c (columnOf g c) = g := by
  intro g
  induction g with
  | nil => intro _; rfl
  | cons row rows ih =>
    intro hmem
    have hc : c < row.length := hmem row (by simp)
    simp only [columnOf, List.map_cons, writeColumn, List.zipWith_cons_cons]
    have hv : row.set c (row.getD c ' ') = row := by
      rw [List.getD_eq_getElem _ _ hc]
      exact set_getElem_self_eq row c hc
    rw [hv]
    have := ih (fun r hr => hmem r (by simp [hr]))
    simpa [writeColumn, columnOf] using this

/-- Every row of a written grid keeps its length (rows are only `set`). -/
theorem writeColumn_mem_length (c : Nat) :
    ∀ (g : Grid) (vals : List Char) (row2 : List Char),
      row2 ∈ writeColumn g c vals → ∃ row ∈ g, row2.length = row.length := by
  intro g
  induction g with
  | nil => intro vals row2 h; simp [writeColumn] at h
  | cons row rows ih =>
    intro vals row2 h
    cases vals with
    | nil => simp [writeColumn] at h
    | cons v vs =>
      simp only [writeColumn, List.zipWith_cons_cons, List.mem_cons] at h
      rcases h with h | h
      · exact ⟨row, by simp, by simp [h]⟩
      · obtain ⟨r, hr, hlen⟩ := ih vs row2 h
        exact ⟨r, by simp [hr], hlen⟩

/-- For a positive row count, the JS double-`%` normalization is exactly the
Euclidean remainder of the shift. -/
theorem jsNormShift_eq_emod (shift : Int) (numRows : Nat) (h : 0 < numRows) :
    (jsNormShift shift numRows : Int) = shift % (numRows : Int) := by
  have hn : (0 : Int) < numRows := by exact_mod_cast h
  have hxlow : -(numRows : Int) < shift.tmod numRows := by
    rcases Int.le_or_lt 0 shift with hs | hs
    · have h0 := Int.tmod_nonneg (numRows : Int) hs
      omega
    · have hneg : (-shift).tmod numRows = -(shift.tmod numRows) := by
        rw [Int.tmod_def, Int.tmod_def, Int.neg_tdiv]
        ring
      have hlt : (-shift).tmod numRows < numRows := Int.tmod_lt_of_pos _ hn
      omega
  have hnonneg : 0 ≤ shift.tmod numRows + numRows := by omega
  have heq1 : (shift.tmod numRows + numRows).tmod numRows
      = (shift.tmod numRows + numRows) % (numRows : Int) :=
    Int.tmod_eq_emod hnonneg (Int.le_of_lt hn)
  have heq2 : (shift.tmod numRows + numRows) % (numRows : Int)
      = shift % (numRows : Int) := by
    have hdef : shift.tmod numRows = shift - numRows * shift.tdiv numRows :=
      Int.tmod_def shift numRows
    have hsum : shift.tmod numRows + numRows
        = shift + (numRows : Int) * (1 - shift.tdiv numRows) := by
      rw [hdef]; ring
    rw [hsum, Int.add_mul_emod_self_left]
  have hval : (shift.tmod numRows + numRows).tmod numRows
      = shift % (numRows : Int) := heq1.trans heq2
  have hnn : 0 ≤ (shift.tmod numRows + numRows).tmod numRows :=
    hval ▸ Int.emod_nonneg shift (by omega)
  unfold jsNormShift
  rw [Int.toNat_of_nonneg hnn, hval]

/-- The normalized shift is below the (positive) row count. -/
theorem jsNormShift_lt (shift : Int) (numRows : Nat) (h : 0 < numRows) :
    jsNormShift shift numRows < numRows := by
  have := jsNormShift_eq_emod shift numRows h
  have hlt : shift % (numRows : Int) < numRows :=
    Int.emod_lt_of_pos shift (by exact_mod_cast h)
  omega

/-- The normalized shifts of `shift` and `-shift` sum to `0` modulo the row
count. -/
theorem jsNormShift_add_neg (shift : Int) (numRows : Nat) (h : 0 < numRows) :
    (jsNormShift shift numRows + jsNormShift (-shift) numRows) % numRows = 0 := by
  have h1 := jsNormShift_eq_emod shift numRows h
  have h2 := jsNormShift_eq_emod (-shift) numRows h
  have hadd : (shift % (numRows : Int) + (-shift) % (numRows : Int)) % (numRows : Int) = 0 := by
    rw [← Int.add_emod]
    simp
  have hcast : ((jsNormShift shift numRows + jsNormShift (-shift) numRows : Nat) : Int)
      % (numRows : Int) = 0 := by
    push_cast [h1, h2]
    exact hadd
  omega

/-- `getD` after `set` at a different index is unchanged. -/
theorem getD_set_ne (l : List Char) (i j : Nat) (a : Char) (d : Char)
    (h : i ≠ j) : (l.set i a).getD j d = l.getD j d := by
  rw [List.getD_eq_getElem?_getD, List.getD_eq_getElem?_getD,
    List.getElem?_set_ne h]

/-- Pointwise description of the write-back loop. -/
theorem writeColumn_getD (c : Nat) :
    ∀ (g : Grid) (vals : List Char), vals.length = g.length → ∀ i : Nat,
      (writeColumn g c vals).getD i [] = (g.getD i []).set c (vals.getD i ' ') := by
  intro g
  induction g with
  | nil =>
    intro vals hlen i
    rw [List.length_nil] at hlen
    rw [List.length_eq_zero.mp hlen]
    simp [writeColumn]
  | cons row rows ih =>
    intro vals hlen i
    cases vals with
    | nil => simp at hlen
    | cons v vs =>
      cases i with
      | zero => simp [writeColumn]
      | succ j =>
        have := ih vs (by simpa using hlen) j
        simpa [writeColumn] using this

/-- C2 (confirmed): for every grid, every column index in range for each row,
and every integer shift, rotating the column by `shift` and then by `-shift`
via the player rotation operation restores the grid exactly. -/
theorem C2_moveColumn_round_trip (g : Grid) (col : Nat) (shift : Int)
    (h : ∀ row ∈ g, col < row.length) :
    ∃ g2, moveColumn g col shift = some g2 ∧
      moveColumn g2 col (-shift) = some g := by
  rcases List.eq_nil_or_concat g with hnil | hne
  · subst hnil
    exact ⟨[], rfl, rfl⟩
  · have hpos : 0 < g.length := by
      obtain ⟨l, a, rfl⟩ := hne
      simp
    have hvlen : (columnOf g col).length = g.length := by simp [columnOf]
    have hs1 : jsNormShift shift g.length < g.length := jsNormShift_lt _ _ hpos
    have hs2 : jsNormShift (-shift) g.length < g.length := jsNormShift_lt _ _ hpos
    have hr1len : (rotateDown (columnOf g col) (jsNormShift shift g.length)).length
        = g.length := by rw [rotateDown_length]; exact hvlen
    have hall : g.all (fun row => col < row.length) = true := by
      rw [List.all_eq_true]
      intro x hx
      simpa using h x hx
    have hg2len : (writeColumn g col
        (rotateDown (columnOf g col) (jsNormShift shift g.length))).length
        = g.length := by
      rw [writeColumn_length, hr1len]
      omega
    have hmem2 : ∀ row ∈ writeColumn g col
        (rotateDown (columnOf g col) (jsNormShift shift g.length)),
        col < row.length := by
      intro row hr
      obtain ⟨r0, hr0, hlen⟩ := writeColumn_mem_length col g _ row hr
      rw [hlen]
      exact h r0 hr0
    have hall2 : (writeColumn g col
        (rotateDown (columnOf g col) (jsNormShift shift g.length))).all
        (fun row => col < row.length) = true := by
      rw [List.all_eq_true]
      intro x hx
      simpa using hmem2 x hx
    refine ⟨_, by rw [moveColumn, if_pos hall], ?_⟩
    rw [moveColumn, if_pos hall2]
    congr 1
    rw [hg2len]
    rw [columnOf_writeColumn col g _ h hr1len]
    rw [rotateDown_rotateDown _ _ _ (by omega) (by omega)
      (by rw [hvlen]; exact jsNormShift_add_neg shift g.length hpos)]
    rw [writeColumn_writeColumn col g _ _ (by rw [hr1len])]
    exact writeColumn_columnOf_self col g h

/-- Witness for C2: a 3-row, 1-column grid rotated down by 1 and back. -/
theorem C2_moveColumn_round_trip_witness :
    ∃ g2, moveColumn [['A'], ['B'], ['C']] 0 1 = some g2 ∧
      moveColumn g2 0 (-1) = some [['A'], ['B'], ['C']] :=
  C2_moveColumn_round_trip [['A'], ['B'], ['C']] 0 1 (by decide)

/-- C10 (confirmed): the player rotation touches at most the targeted column:
the row count and each row length are preserved, cells outside the column are
unchanged, the targeted column becomes a circular permutation of its prior
values, and a shift that is a multiple of the grid height (including 0)
leaves the grid unchanged. -/
theorem C10_moveColumn_frame (g : Grid) (col : Nat) (shift : Int)
    (h : ∀ row ∈ g, col < row.length) :
    ∃ g2, moveColumn g col shift = some g2 ∧
      g2.length = g.length ∧
      (∀ i : Nat, (g2.getD i []).length = (g.getD i []).length) ∧
      (∀ i c2 : Nat, c2 ≠ col →
        (g2.getD i []).getD c2 ' ' = (g.getD i []).getD c2 ' ') ∧
      (∃ k, columnOf g2 col = (columnOf g col).rotate k) ∧
      ((g.length : Int) ∣ shift → g2 = g) := by
  rcases List.eq_nil_or_concat g with hnil | hne
  · subst hnil
    exact ⟨[], rfl, rfl, fun i => rfl, fun i c2 _ => rfl, ⟨0, rfl⟩, fun _ => rfl⟩
  · have hpos : 0 < g.length := by
      obtain ⟨l, a, rfl⟩ := hne
      simp
    have hvlen : (columnOf g col).length = g.length := by simp [columnOf]
    have hs1 : jsNormShift shift g.length < g.length := jsNormShift_lt _ _ hpos
    have hr1len : (rotateDown (columnOf g col) (jsNormShift shift g.length)).length
        = g.length := by rw [rotateDown_length]; exact hvlen
    have hall : g.all (fun row => col < row.length) = true := by
      rw [List.all_eq_true]
      intro x hx
      simpa using h x hx
    refine ⟨_, by rw [moveColumn, if_pos hall], ?_, ?_, ?_, ?_, ?_⟩
    · rw [writeColumn_length, hr1len]
      omega
    · intro i
      rw [writeColumn_getD col g _ hr1len i]
      simp
    · intro i c2 hc2
      rw [writeColumn_getD col g _ hr1len i]
      exact getD_set_ne _ _ _ _ _ (fun hx => hc2 hx.symm)
    · refine ⟨(columnOf g col).length - jsNormShift shift g.length, ?_⟩
      rw [columnOf_writeColumn col g _ h hr1len, rotateDown_eq_rotate]
    · intro hdvd
      have hz : jsNormShift shift g.length = 0 := by
        have he := jsNormShift_eq_emod shift g.length hpos
        rw [Int.emod_eq_zero_of_dvd hdvd] at he
        omega
      rw [hz, rotateDown_zero]
      exact writeColumn_columnOf_self col g h

/-- Witness for C10: a 2×2 grid rotated in column 1 by shift 3. -/
theorem C10_moveColumn_frame_witness :
    ∃ g2, moveColumn [['A', 'B'], ['C', 'D']] 1 3 = some g2 ∧
      g2.length = 2 ∧
      (∀ i : Nat, (g2.getD i []).length
        = ([['A', 'B'], ['C', 'D']].getD i []).length) ∧
      (∀ i c2 : Nat, c2 ≠ 1 →
        (g2.getD i []).getD c2 ' '
          = ([['A', 'B'], ['C', 'D']].getD i []).getD c2 ' ') ∧
      (∃ k, columnOf g2 1 = (columnOf [['A', 'B'], ['C', 'D']] 1).rotate k) ∧
      (((2 : Nat) : Int) ∣ (3 : Int) → g2 = [['A', 'B'], ['C', 'D']]) :=
  C10_moveColumn_frame [['A', 'B'], ['C', 'D']] 1 3 (by decide)

/-- C6 counterexample: rotating column index 1 of a one-column grid is not a
silent no-op: the JS column extraction `grid.map(row => row[1][0])` hits
`undefined[0]` and throws a `TypeError` (modelled as `none`), rather than
leaving the grid unchanged without signalling an error. -/
theorem C6_out_of_range_rotation_counterexample :
    moveColumn [['A']] 1 1 = none := by
  rfl


/-! ## Win check (`checkWin`) and grid assembly (`buildGrid`) -/

/-- The inner column loop of `checkWin` over one playfield row, with its
early `break` on the first mismatch.  The loop runs over the grid row's
columns; a missing mask entry (JS `undefined`, falsy) means the position is
checked, and a missing content entry (`undefined`) mismatches every
character. -/
def checkCells : List Char → List Bool → List Char → Bool
  | [], _, _ => true
  | _ :: _, [], _ => false
  | _ :: gs, true :: ms, [] => checkCells gs ms []
  | _ :: _, false :: _, [] => false
  | _ :: gs, true :: ms, _ :: cs => checkCells gs ms cs
  | ch :: gs, false :: ms, cv :: cs => if ch = cv then checkCells gs ms cs else false

/-- `checkWin`: every playfield row passes the column loop (the outer loop
breaks early on a failed row, which is the same conjunction).  The win
message rendering is UI-only.  JS indexes `grid[row]` directly; the `getD`
default is only reached on malformed states (fewer than `PLAYFIELD_ROWS`
rows), where JS would throw instead. -/
def checkWin (g : Grid) (mask : List (List Bool)) (content : Grid) : Bool :=
  (List.range PLAYFIELD_ROWS).all fun r =>
    checkCells (g.getD r []) (mask.getD r []) (content.getD r [])

/-- The property the spec states for the win predicate: every unmasked
playfield position holds its ground-truth character. -/
def WinSpec (g : Grid) (mask : List (List Bool)) (content : Grid) : Prop :=
  ∀ r < PLAYFIELD_ROWS, ∀ c < (g.getD r []).length,
    (mask.getD r []).getD c false = false →
      (g.getD r []).getD c ' ' = (content.getD r []).getD c ' '

/-- The row loop agrees with the per-position description, given aligned row
lengths. -/
theorem checkCells_iff :
    ∀ (gr : List Char) (mr : List Bool) (cr : List Char),
      mr.length = gr.length → cr.length = gr.length →
      (checkCells gr mr cr = true ↔
        ∀ c < gr.length, mr.getD c false = false →
          gr.getD c ' ' = cr.getD c ' ') := by
  intro gr
  induction gr with
  | nil =>
    intro mr cr _ _
    simp [checkCells]
  | cons ch gs ih =>
    intro mr cr hm hc
    cases mr with
    | nil => simp at hm
    | cons m ms =>
      cases cr with
      | nil => simp at hc
      | cons cv cs =>
        have hms : ms.length = gs.length := by simpa using hm
        have hcs : cs.length = gs.length := by simpa using hc
        cases m with
        | true =>
          simp only [checkCells]
          rw [ih ms cs hms hcs]
          constructor
          · intro hall c hclt hmask
            cases c with
            | zero => simp at hmask
            | succ c2 =>
              have := hall c2 (by simpa using hclt) (by simpa using hmask)
              simpa using this
          · intro hall c hclt hmask
            have := hall (c + 1) (by simpa using hclt) (by simpa using hmask)
            simpa using this
        | false =>
          simp only [checkCells]
          by_cases hcv : ch = cv
          · rw [if_pos hcv, ih ms cs hms hcs]
            constructor
            · intro hall c hclt hmask
              cases c with
              | zero => simpa using hcv
              | succ c2 =>
                have := hall c2 (by simpa using hclt) (by simpa using hmask)
                simpa using this
            · intro hall c hclt hmask
              have := hall (c + 1) (by simpa using hclt) (by simpa using hmask)
              simpa using this
          · rw [if_neg hcv]
            constructor
            · intro hfalse
              simp at hfalse
            · intro hall
              have := hall 0 (by simp) (by simp)
              simp at this
              exact absurd this hcv

/-- Two rows agreeing on every unmasked position pass the column loop
identically (mask and content fixed). -/
theorem checkCells_congr :
    ∀ (gr1 gr2 : List Char) (mr : List Bool) (cr : List Char),
      gr1.length = gr2.length →
      (∀ c < gr1.length, mr.getD c false = false →
        gr1.getD c ' ' = gr2.getD c ' ') →
      checkCells gr1 mr cr = checkCells gr2 mr cr := by
  intro gr1
  induction gr1 with
  | nil =>
    intro gr2 mr cr hlen _
    rw [(List.length_eq_zero.mp hlen.symm)]
  | cons a as ih =>
    intro gr2 mr cr hlen hag
    cases gr2 with
    | nil => simp at hlen
    | cons b bs =>
      cases mr with
      | nil => rfl
      | cons m ms =>
        have hlen2 : as.length = bs.length := by simpa using hlen
        cases m with
        | true =>
          cases cr with
          | nil =>
            simp only [checkCells]
            exact ih bs ms [] hlen2 fun c hcl hmk =>
              hag (c + 1) (by simpa using hcl) (by simpa using hmk)
          | cons cv cs =>
            simp only [checkCells]
            exact ih bs ms cs hlen2 fun c hcl hmk =>
              hag (c + 1) (by simpa using hcl) (by simpa using hmk)
        | false =>
          have hab : a = b := by
            have := hag 0 (by simp) (by simp)
            simpa using this
          subst hab
          cases cr with
          | nil => rfl
          | cons cv cs =>
            simp only [checkCells]
            by_cases hcv : a = cv
            · rw [if_pos hcv, if_pos hcv]
              exact ih bs ms cs hlen2 fun c hcl hmk =>
                hag (c + 1) (by simpa using hcl) (by simpa using hmk)
            · rw [if_neg hcv, if_neg hcv]

/-- `List.all` only looks at members. -/
theorem all_congr_mem : ∀ (l : List Nat) (f g2 : Nat → Bool),
    (∀ x ∈ l, f x = g2 x) → l.all f = l.all g2 := by
  intro l
  induction l with
  | nil => intro f g2 _; rfl
  | cons a as ih =>
    intro f g2 hfg
    simp only [List.all_cons]
    rw [hfg a (by simp), ih f g2 fun x hx => hfg x (by simp [hx])]

/-- C1 (confirmed): the win check is true exactly when every unmasked
playfield position carries its ground-truth character, and its result is
invariant under changes to masked (and out-of-playfield) cells. -/
theorem C1_checkWin_iff_and_padding_invariant (g : Grid)
    (mask : List (List Bool)) (content : Grid)
    (hm : ∀ r < PLAYFIELD_ROWS, (mask.getD r []).length = (g.getD r []).length)
    (hc : ∀ r < PLAYFIELD_ROWS, (content.getD r []).length = (g.getD r []).length) :
    (checkWin g mask content = true ↔ WinSpec g mask content) ∧
      (∀ g2 : Grid,
        (∀ r < PLAYFIELD_ROWS, (g2.getD r []).length = (g.getD r []).length) →
        (∀ r < PLAYFIELD_ROWS, ∀ c < (g.getD r []).length,
          (mask.getD r []).getD c false = false →
            (g2.getD r []).getD c ' ' = (g.getD r []).getD c ' ') →
        checkWin g2 mask content = checkWin g mask content) := by
  constructor
  · rw [checkWin, List.all_eq_true]
    constructor
    · intro hall r hr c hclt hmask
      have hrow := hall r (List.mem_range.mpr hr)
      rw [checkCells_iff _ _ _ (hm r hr) (hc r hr)] at hrow
      exact hrow c hclt hmask
    · intro hspec x hx
      have hr : x < PLAYFIELD_ROWS := List.mem_range.mp hx
      rw [checkCells_iff _ _ _ (hm x hr) (hc x hr)]
      intro c hclt hmask
      exact hspec x hr c hclt hmask
  · intro g2 hlen hag
    rw [checkWin, checkWin]
    apply all_congr_mem
    intro r hrmem
    have hr : r < PLAYFIELD_ROWS := List.mem_range.mp hrmem
    apply checkCells_congr
    · exact hlen r hr
    · intro c hclt hmask
      exact hag r hr c (by rw [← hlen r hr]; exact hclt) hmask

/-- Witness for C1 on a concrete 6-row, 1-column state (rows 2 and 3 of the
playfield are padding). -/
theorem C1_checkWin_iff_and_padding_invariant_witness :
    (checkWin [['A'], ['B'], ['X'], ['Y'], ['Z'], ['W']]
        [[false], [false], [true], [true]] [['A'], ['B'], ['Q'], ['R']] = true ↔
      WinSpec [['A'], ['B'], ['X'], ['Y'], ['Z'], ['W']]
        [[false], [false], [true], [true]] [['A'], ['B'], ['Q'], ['R']]) ∧
      (∀ g2 : Grid,
        (∀ r < PLAYFIELD_ROWS, (g2.getD r []).length
          = ([['A'], ['B'], ['X'], ['Y'], ['Z'], ['W']].getD r []).length) →
        (∀ r < PLAYFIELD_ROWS,
          ∀ c < ([['A'], ['B'], ['X'], ['Y'], ['Z'], ['W']].getD r []).length,
          ([[false], [false], [true], [true]].getD r []).getD c false = false →
            (g2.getD r []).getD c ' '
              = ([['A'], ['B'], ['X'], ['Y'], ['Z'], ['W']].getD r []).getD c ' ') →
        checkWin g2 [[false], [false], [true], [true]] [['A'], ['B'], ['Q'], ['R']]
          = checkWin [['A'], ['B'], ['X'], ['Y'], ['Z'], ['W']]
            [[false], [false], [true], [true]] [['A'], ['B'], ['Q'], ['R']]) :=
  C1_checkWin_iff_and_padding_invariant
    [['A'], ['B'], ['X'], ['Y'], ['Z'], ['W']]
    [[false], [false], [true], [true]] [['A'], ['B'], ['Q'], ['R']]
    (by decide) (by decide)

/-! ## Grid assembly (`buildGrid`) and filler replacement -/

/-- `findLongestRow`: the running-maximum loop over row lengths. -/
def findLongestRow (matrix : Grid) : Nat :=
  matrix.foldl (fun longest row =>
    if row.length > longest then row.length else longest) 0

/-- The padding loop of `buildGrid` for one row: step `i` prepends a filler
cell when `i` is even and appends one when `i` is odd, for `deficit` steps. -/
def padRowGo (row : List Char) (i : Nat) : Nat → List Char
  | 0 => row
  | k + 1 => padRowGo (if i % 2 = 0 then '*' :: row else row ++ ['*']) (i + 1) k

/-- Pad one row to the longest width (no-op when already that wide). -/
def padRow (longest : Nat) (row : List Char) : List Char :=
  if row.length < longest then padRowGo row 0 (longest - row.length) else row

/-- The grid-shaping part of `buildGrid`: pad every row, then append the two
all-filler reserve rows.  (In JS this mutates `baseMatrix` in place; the
shaping is complete before the ground-truth snapshot loop runs.) -/
def buildGridRows (m : Grid) : Grid :=
  let longest := findLongestRow m
  (m.map (padRow longest)) ++
    [List.replicate longest '*', List.replicate longest '*']

/-- `buildGrid`: shape the grid, then snapshot the ground truth for rows
`0 .. PLAYFIELD_ROWS - 1`: the padding mask records which cells are the
filler marker and the content records the assembled characters.  JS reads
`baseMatrix[row]` for each playfield row; when the shaped grid has fewer than
`PLAYFIELD_ROWS` rows that access throws a `TypeError` (modelled as `none`),
so assembly only completes for input matrices with at least two rows. -/
def buildGrid (m : Grid) : Option (Grid × List (List Bool) × Grid) :=
  let g := buildGridRows m
  if PLAYFIELD_ROWS ≤ g.length then
    some (g,
      (g.take PLAYFIELD_ROWS).map (fun row => row.map (fun ch => ch == '*')),
      g.take PLAYFIELD_ROWS)
  else none

/-- The inner cell loop of `replaceAsterisksWithRandomChars` on one row,
starting at column index `c`; `fr` models the stream of
`getRandomCharacter()` results by column. -/
def replaceCellsGo (fr : Nat → Char) : Nat → List Char → List Char
  | _, [] => []
  | c, ch :: rest =>
    (if ch = '*' then fr c else ch) :: replaceCellsGo fr (c + 1) rest

/-- The row loop of `replaceAsterisksWithRandomChars`; `f` models the random
letters drawn, indexed by position. -/
def replaceAsterisksGo (f : Nat → Nat → Char) : Nat → Grid → Grid
  | _, [] => []
  | r, row :: rest => replaceCellsGo (f r) 0 row :: replaceAsterisksGo f (r + 1) rest

/-- `replaceAsterisksWithRandomChars`: every `'*'` cell in the whole grid is
replaced by a (random) letter, here an arbitrary choice function `f`. -/
def replaceAsterisksWithRandomChars (f : Nat → Nat → Char) (g : Grid) : Grid :=
  replaceAsterisksGo f 0 g

theorem padRowGo_length (k : Nat) :
    ∀ (row : List Char) (i : Nat), (padRowGo row i k).length = row.length + k := by
  induction k with
  | zero => intro row i; rfl
  | succ k2 ih =>
    intro row i
    rw [padRowGo, ih]
    split <;> simp <;> omega

theorem padRow_length (longest : Nat) (row : List Char)
    (h : row.length ≤ longest) : (padRow longest row).length = longest := by
  rw [padRow]
  split
  · rw [padRowGo_length]
    omega
  · omega

/-- The running-maximum fold never drops below its accumulator. -/
theorem foldl_longest_ge_acc :
    ∀ (m : Grid) (acc : Nat), acc ≤ m.foldl (fun longest r =>
      if r.length > longest then r.length else longest) acc := by
  intro m
  induction m with
  | nil => intro acc; simp
  | cons b bs ih =>
    intro acc
    refine le_trans ?_ (ih (if b.length > acc then b.length else acc))
    split <;> omega

/-- The running maximum bounds every row. -/
theorem findLongestRow_ge :
    ∀ (m : Grid) (row : List Char), row ∈ m → row.length ≤ findLongestRow m := by
  have hgen : ∀ (m : Grid) (acc : Nat) (row : List Char), row ∈ m →
      row.length ≤ m.foldl (fun longest r =>
        if r.length > longest then r.length else longest) acc := by
    intro m
    induction m with
    | nil => intro acc row h; simp at h
    | cons a as ih =>
      intro acc row h
      rcases List.mem_cons.mp h with rfl | h2
      · refine le_trans ?_
          (foldl_longest_ge_acc as (if row.length > acc then row.length else acc))
        split <;> omega
      · exact ih _ row h2
  intro m row h
  exact hgen m 0 row h

theorem buildGridRows_length (m : Grid) :
    (buildGridRows m).length = m.length + 2 := by
  simp [buildGridRows]

theorem buildGridRows_row_length (m : Grid) :
    ∀ row ∈ buildGridRows m, row.length = findLongestRow m := by
  intro row h
  rw [buildGridRows] at h
  simp only [List.mem_append, List.mem_map] at h
  rcases h with ⟨r0, hr0, rfl⟩ | h
  · exact padRow_length _ r0 (findLongestRow_ge m r0 hr0)
  · have : row = List.replicate (findLongestRow m) '*' := by
      simpa using h
    rw [this, List.length_replicate]

/-- `moveColumn` preserves the number of rows. -/
theorem moveColumn_length (g : Grid) (col : Nat) (shift : Int) (g2 : Grid)
    (h : moveColumn g col shift = some g2) : g2.length = g.length := by
  rw [moveColumn] at h
  split at h
  · have hg2 : g2 = writeColumn g col
        (rotateDown (columnOf g col) (jsNormShift shift g.length)) :=
      (Option.some_inj.mp h).symm
    rw [hg2, writeColumn_length, rotateDown_length]
    simp [columnOf]
  · exact absurd h (by simp)

/-- C3 (corrected): every assembled row has the longest input row's width,
but the assembled height is the INPUT row count plus 2 — equal to
`PLAYFIELD_ROWS + 2` only when the input matrix has exactly `PLAYFIELD_ROWS`
rows.  Assembly even aborts (ground-truth snapshot `TypeError`) for inputs
with fewer than two rows, including the degenerate one-cell matrix.  The
height is preserved by every rotation. -/
theorem C3_buildGrid_shape (m : Grid) :
    ((buildGridRows m).length = m.length + 2) ∧
      (∀ row ∈ buildGridRows m, row.length = findLongestRow m) ∧
      (m.length = PLAYFIELD_ROWS → (buildGridRows m).length = PLAYFIELD_ROWS + 2) ∧
      (buildGrid m = none ↔ m.length < 2) ∧
      (∀ (col : Nat) (shift : Int) (g2 : Grid),
        moveColumn (buildGridRows m) col shift = some g2 →
          g2.length = m.length + 2) := by
  refine ⟨buildGridRows_length m, buildGridRows_row_length m, ?_, ?_, ?_⟩
  · intro hm
    rw [buildGridRows_length, hm]
  · rw [buildGrid]
    have hlen := buildGridRows_length m
    constructor
    · intro hnone
      by_contra hge
      rw [if_pos (by rw [hlen]; unfold PLAYFIELD_ROWS; omega)] at hnone
      exact absurd hnone (by simp)
    · intro hlt
      rw [if_neg (by rw [hlen]; unfold PLAYFIELD_ROWS; omega)]
  · intro col shift g2 h
    rw [moveColumn_length _ _ _ _ h, buildGridRows_length]

/-- Witness for C3 on the one-row input matrix. -/
theorem C3_buildGrid_shape_witness :
    ((buildGridRows [['A']]).length = 1 + 2) ∧
      (∀ row ∈ buildGridRows [['A']], row.length = findLongestRow [['A']]) ∧
      ([['A']].length = PLAYFIELD_ROWS →
        (buildGridRows [['A']]).length = PLAYFIELD_ROWS + 2) ∧
      (buildGrid [['A']] = none ↔ [['A']].length < 2) ∧
      (∀ (col : Nat) (shift : Int) (g2 : Grid),
        moveColumn (buildGridRows [['A']]) col shift = some g2 →
          g2.length = [['A']].length + 2) :=
  C3_buildGrid_shape [['A']]

/-- C3 counterexample: on the degenerate single-cell matrix the shaped grid
has 3 rows, not `PLAYFIELD_ROWS + 2 = 6`, and the assembly aborts before
returning (`buildGrid` is `none`). -/
theorem C3_height_counterexample :
    (buildGridRows [['*']]).length = 3 ∧ buildGrid [['*']] = none ∧
      (3 : Nat) ≠ PLAYFIELD_ROWS + 2 := by
  refine ⟨by rfl, by rfl, by decide⟩

theorem replaceCellsGo_length (fr : Nat → Char) :
    ∀ (row : List Char) (c0 : Nat), (replaceCellsGo fr c0 row).length = row.length := by
  intro row
  induction row with
  | nil => intro c0; rfl
  | cons ch rest ih => intro c0; simp [replaceCellsGo, ih]

/-- Pointwise description of the cell-replacement loop: `'*'` cells become
the drawn letter, others are untouched.  (The `' '` default is itself not
`'*'`, so the description also holds out of range.) -/
theorem replaceCellsGo_getD (fr : Nat → Char) :
    ∀ (row : List Char) (c0 i : Nat),
      (replaceCellsGo fr c0 row).getD i ' ' =
        (if row.getD i ' ' = '*' then fr (c0 + i) else row.getD i ' ') := by
  intro row
  induction row with
  | nil =>
    intro c0 i
    simp [replaceCellsGo]
  | cons ch rest ih =>
    intro c0 i
    cases i with
    | zero => simp [replaceCellsGo]
    | succ j =>
      have := ih (c0 + 1) j
      simp only [replaceCellsGo, List.getD_cons_succ]
      rw [this]
      have harith : c0 + 1 + j = c0 + (j + 1) := by omega
      rw [harith]

theorem replaceAsterisksGo_getD (f : Nat → Nat → Char) :
    ∀ (g : Grid) (r0 i : Nat),
      (replaceAsterisksGo f r0 g).getD i [] =
        replaceCellsGo (f (r0 + i)) 0 (g.getD i []) := by
  intro g
  induction g with
  | nil =>
    intro r0 i
    simp [replaceAsterisksGo, replaceCellsGo]
  | cons row rest ih =>
    intro r0 i
    cases i with
    | zero => simp [replaceAsterisksGo]
    | succ j =>
      have := ih (r0 + 1) j
      simp only [replaceAsterisksGo, List.getD_cons_succ]
      rw [this]
      have harith : r0 + 1 + j = r0 + (j + 1) := by omega
      rw [harith]

/-- `getD` through `take` at an index below the cut. -/
theorem getD_take_of_lt (g : Grid) (n r : Nat) (hr : r < n) :
    (g.take n).getD r [] = g.getD r [] := by
  rw [List.getD_eq_getElem?_getD, List.getD_eq_getElem?_getD,
    List.getElem?_take, if_pos hr]

/-- `getD` through `map` over rows. -/
theorem getD_map_rows (g : Grid) (r : Nat) (hr : r < g.length) :
    ((g.map (fun row => row.map (fun ch => ch == '*'))).getD r []) =
      (g.getD r []).map (fun ch => ch == '*') := by
  rw [List.getD_eq_getElem?_getD, List.getD_eq_getElem?_getD,
    List.getElem?_map]
  rw [List.getElem?_eq_getElem hr]
  rfl

/-- `getD` through `map` over one row's characters. -/
theorem getD_map_cells (row : List Char) (c : Nat) (hc : c < row.length) :
    ((row.map (fun ch => ch == '*')).getD c false) = (row.getD c ' ' == '*') := by
  rw [List.getD_eq_getElem?_getD, List.getD_eq_getElem?_getD,
    List.getElem?_map]
  rw [List.getElem?_eq_getElem hc]
  rfl

/-- C5 (confirmed): assembling a grid and replacing every filler marker by
arbitrary letters, then running the win check against the snapshotted ground
truth, reports solved for every choice of replacement letters. -/
theorem C5_assembled_then_replaced_is_solved (m : Grid) (g : Grid)
    (mask : List (List Bool)) (content : Grid)
    (h : buildGrid m = some (g, mask, content)) (f : Nat → Nat → Char) :
    checkWin (replaceAsterisksWithRandomChars f g) mask content = true := by
  rw [buildGrid] at h
  by_cases hge : PLAYFIELD_ROWS ≤ (buildGridRows m).length
  · rw [if_pos hge] at h
    simp only [Option.some.injEq, Prod.mk.injEq] at h
    obtain ⟨hg, hmask, hcontent⟩ := h
    subst hg
    subst hmask
    subst hcontent
    rw [checkWin, List.all_eq_true]
    intro r hrmem
    have hr : r < PLAYFIELD_ROWS := List.mem_range.mp hrmem
    have hrlen : r < (buildGridRows m).length := by omega
    have hrtake : r < (List.take PLAYFIELD_ROWS (buildGridRows m)).length := by
      rw [List.length_take]
      omega
    rw [replaceAsterisksWithRandomChars, replaceAsterisksGo_getD,
      getD_map_rows _ _ hrtake, getD_take_of_lt _ _ _ hr]
    rw [checkCells_iff _ _ _
      (by rw [List.length_map, replaceCellsGo_length])
      (by rw [replaceCellsGo_length])]
    intro c hclt hmaskc
    rw [replaceCellsGo_length] at hclt
    rw [getD_map_cells _ _ hclt] at hmaskc
    have hne : ((buildGridRows m).getD r []).getD c ' ' ≠ '*' := by
      intro hstar
      rw [hstar] at hmaskc
      simp at hmaskc
    rw [replaceCellsGo_getD, if_neg hne]
  · rw [if_neg hge] at h
    exact absurd h (by simp)

/-- Witness for C5: the two-row matrix `[["A"], ["B"]]` assembled, filled
with the letter Z, and checked. -/
theorem C5_assembled_then_replaced_is_solved_witness :
    checkWin (replaceAsterisksWithRandomChars (fun _ _ => 'Z')
        [['A'], ['B'], ['*'], ['*']])
      [[false], [false], [true], [true]] [['A'], ['B'], ['*'], ['*']] = true :=
  C5_assembled_then_replaced_is_solved [['A'], ['B']]
    [['A'], ['B'], ['*'], ['*']] [[false], [false], [true], [true]]
    [['A'], ['B'], ['*'], ['*']] (by rfl) (fun _ _ => 'Z')

/-! ## The hint-enabled variant: session state, locked columns, `useHint` -/

/-- The session state of the hint-enabled variant: the live grid, the ground
truth (`originalAsteriskPositions` / `originalContent`), the hint budget
(`hintsRemaining`), the locked columns, and the transient highlight column
(`lastHintedColumn`, `-1` when none). -/
structure GameState where
  grid : Grid
  mask : List (List Bool)
  content : Grid
  hintsRemaining : Int
  lockedColumns : List Nat
  lastHintedColumn : Int
  deriving Repr, DecidableEq

/-- `moveColumn` of the hint-enabled variant: a locked column is silently
ignored BEFORE the column is extracted; otherwise the rotation runs as in
`scripts2.js` (and, as there, an out-of-range unlocked column throws). -/
def moveColumnE (st : GameState) (col : Nat) (shift : Int) : Option GameState :=
  if st.lockedColumns.contains col then some st
  else (moveColumn st.grid col shift).map fun g2 => { st with grid := g2 }

/-- The mismatch scan of `useHint` for one column: some playfield row is not
a padding slot and differs from the ground truth (with the early `break`). -/
def columnHasIncorrectLetter (st : GameState) (col : Nat) : Bool :=
  (List.range PLAYFIELD_ROWS).any fun row =>
    !((st.mask.getD row []).getD col false) &&
      !((st.grid.getD row []).getD col ' ' == (st.content.getD row []).getD col ' ')

/-- The `incorrectColumns` list accumulated by `useHint`, over the columns
`0 .. grid[0].length - 1`. -/
def incorrectColumns (st : GameState) : List Nat :=
  (List.range (st.grid.headD []).length).filter fun col =>
    columnHasIncorrectLetter st col

/-- The per-shift test of `useHint`'s brute-force loop: rotating the column by
`shift % numRows` makes every non-padding playfield row match ground truth. -/
def columnFixedBy (st : GameState) (col s : Nat) : Bool :=
  let rotated := rotateDown (columnOf st.grid col) (s % st.grid.length)
  (List.range PLAYFIELD_ROWS).all fun row =>
    ((st.mask.getD row []).getD col false) ||
      (rotated.getD row ' ' == (st.content.getD row []).getD col ' ')

/-- `useHint`: no-op when the budget is exhausted or no column mismatches;
otherwise pick an incorrect column (`pick` models the random index), apply
the first shift in `0 .. numRows - 1` that fixes it (none may exist for
unreachable states, in which case the grid is left alone), then lock the
column, record it as last hinted, and decrement the budget.  The delayed
highlight clear and all rendering are UI-only. -/
def useHint (st : GameState) (pick : Nat) : GameState :=
  if st.hintsRemaining ≤ 0 then st
  else
    let incorrect := incorrectColumns st
    if incorrect.isEmpty then st
    else
      let colToFix := incorrect.getD pick 0
      let numRows := st.grid.length
      let grid2 :=
        match (List.range numRows).find? (fun s => columnFixedBy st colToFix s) with
        | some s =>
          writeColumn st.grid colToFix
            (rotateDown (columnOf st.grid colToFix) (s % numRows))
        | none => st.grid
      { st with
        grid := grid2
        lastHintedColumn := (colToFix : Int)
        lockedColumns := st.lockedColumns ++ [colToFix]
        hintsRemaining := st.hintsRemaining - 1 }

/-- A shift that is a multiple of the height applies the identity rotation. -/
theorem moveColumn_multiple_noop (g : Grid) (col : Nat) (shift : Int)
    (h : ∀ row ∈ g, col < row.length) (hdvd : (g.length : Int) ∣ shift) :
    moveColumn g col shift = some g := by
  have hall : g.all (fun row => col < row.length) = true := by
    rw [List.all_eq_true]
    intro x hx
    simpa using h x hx
  rcases List.eq_nil_or_concat g with hnil | hne
  · subst hnil
    rfl
  · have hpos : 0 < g.length := by
      obtain ⟨l, a, rfl⟩ := hne
      simp
    have hz : jsNormShift shift g.length = 0 := by
      have he := jsNormShift_eq_emod shift g.length hpos
      rw [Int.emod_eq_zero_of_dvd hdvd] at he
      omega
    rw [moveColumn, if_pos hall, hz, rotateDown_zero,
      writeColumn_columnOf_self col g h]

/-- C6 (corrected): hint requests with an exhausted budget or with no
mismatched column are silent no-ops leaving the whole session state (grid,
ground truth, budget, locked set) unchanged; a rotation whose shift is any
multiple of the height (in particular an "out-of-range" shift that
normalizes to 0) leaves the grid unchanged; but a rotation on an
out-of-range column index on an unlocked column is NOT a silent no-op — the
column extraction fails and the call aborts with a `TypeError` (`none`). -/
theorem C6_noop_and_error_cases :
    (∀ (st : GameState) (pick : Nat), st.hintsRemaining ≤ 0 →
      useHint st pick = st) ∧
      (∀ (st : GameState) (pick : Nat), 0 < st.hintsRemaining →
        incorrectColumns st = [] → useHint st pick = st) ∧
      (∀ (g : Grid) (col : Nat) (shift : Int), (∃ row ∈ g, row.length ≤ col) →
        moveColumn g col shift = none) ∧
      (∀ (g : Grid) (col : Nat) (shift : Int), (∀ row ∈ g, col < row.length) →
        (g.length : Int) ∣ shift → moveColumn g col shift = some g) := by
  refine ⟨?_, ?_, ?_, moveColumn_multiple_noop⟩
  · intro st pick hb
    rw [useHint, if_pos hb]
  · intro st pick hb hinc
    rw [useHint, if_neg (by omega)]
    simp only [hinc]
    rfl
  · intro g col shift hex
    rw [moveColumn, if_neg]
    intro hall
    rw [List.all_eq_true] at hall
    obtain ⟨row, hrow, hlen⟩ := hex
    have := hall row hrow
    simp at this
    omega

/-- Witness for C6 at concrete states: a budget-exhausted hint, a
no-mismatch hint, an out-of-range rotation, and a height-multiple shift. -/
theorem C6_noop_and_error_cases_witness :
    useHint
        { grid := [['A']], mask := [[false]], content := [['A']],
          hintsRemaining := 0, lockedColumns := [], lastHintedColumn := -1 } 0 =
      { grid := [['A']], mask := [[false]], content := [['A']],
        hintsRemaining := 0, lockedColumns := [], lastHintedColumn := -1 } ∧
      useHint
        { grid := [['A'], ['B'], ['C'], ['D'], ['E'], ['F']],
          mask := [[false], [false], [false], [false]],
          content := [['A'], ['B'], ['C'], ['D']],
          hintsRemaining := 5, lockedColumns := [], lastHintedColumn := -1 } 0 =
      { grid := [['A'], ['B'], ['C'], ['D'], ['E'], ['F']],
        mask := [[false], [false], [false], [false]],
        content := [['A'], ['B'], ['C'], ['D']],
        hintsRemaining := 5, lockedColumns := [], lastHintedColumn := -1 } ∧
      moveColumn [['A']] 1 1 = none ∧
      moveColumn [['A'], ['B']] 0 2 = some [['A'], ['B']] := by
  refine ⟨C6_noop_and_error_cases.1 _ 0 (by decide),
    C6_noop_and_error_cases.2.1 _ 0 (by decide) ?_,
    C6_noop_and_error_cases.2.2.1 _ 1 1 ⟨['A'], by decide, by decide⟩,
    C6_noop_and_error_cases.2.2.2 _ 0 2 (by decide) ⟨1, by decide⟩⟩
  rfl

/-- Decompose a successful `moveColumn`: the in-range condition held and the
result is the written-back rotation. -/
theorem moveColumn_eq (g : Grid) (col : Nat) (shift : Int) (g2 : Grid)
    (h : moveColumn g col shift = some g2) :
    (∀ row ∈ g, col < row.length) ∧
      g2 = writeColumn g col
        (rotateDown (columnOf g col) (jsNormShift shift g.length)) := by
  rw [moveColumn] at h
  split at h
  · next hcond =>
    rw [List.all_eq_true] at hcond
    exact ⟨fun row hr => by simpa using hcond row hr, (Option.some_inj.mp h).symm⟩
  · exact absurd h (by simp)

theorem columnOf_getD (col : Nat) :
    ∀ (g : Grid) (i : Nat),
      (columnOf g col).getD i ' ' = (g.getD i []).getD col ' ' := by
  intro g
  induction g with
  | nil => intro i; simp [columnOf]
  | cons row rest ih =>
    intro i
    cases i with
    | zero => rfl
    | succ j => simpa [columnOf] using ih j

theorem columnOf_length (g : Grid) (col : Nat) :
    (columnOf g col).length = g.length := by
  simp [columnOf]

/-- Lists of characters are equal when they have equal length and equal
`getD` values. -/
theorem list_char_ext (l1 l2 : List Char) (hlen : l1.length = l2.length)
    (h : ∀ i, l1.getD i ' ' = l2.getD i ' ') : l1 = l2 := by
  apply List.ext_getElem hlen
  intro n h1 h2
  have := h n
  rwa [List.getD_eq_getElem _ _ h1, List.getD_eq_getElem _ _ h2] at this

/-- A successful rotation leaves every other column unchanged. -/
theorem moveColumn_columnOf_other (g : Grid) (col : Nat) (shift : Int)
    (g2 : Grid) (h : moveColumn g col shift = some g2) (c2 : Nat)
    (hne : c2 ≠ col) : columnOf g2 c2 = columnOf g c2 := by
  obtain ⟨hrange, hg2⟩ := moveColumn_eq g col shift g2 h
  have hrlen : (rotateDown (columnOf g col) (jsNormShift shift g.length)).length
      = g.length := by rw [rotateDown_length, columnOf_length]
  apply list_char_ext
  · rw [columnOf_length, columnOf_length, hg2, writeColumn_length, hrlen]
    omega
  · intro i
    rw [columnOf_getD, columnOf_getD, hg2, writeColumn_getD col g _ hrlen i]
    exact getD_set_ne _ _ _ _ _ (fun hx => hne hx.symm)

/-- A successful rotation replaces the targeted column by its rotation. -/
theorem moveColumn_columnOf_self (g : Grid) (col : Nat) (shift : Int)
    (g2 : Grid) (h : moveColumn g col shift = some g2) :
    columnOf g2 col
      = rotateDown (columnOf g col) (jsNormShift shift g.length) := by
  obtain ⟨hrange, hg2⟩ := moveColumn_eq g col shift g2 h
  have hrlen : (rotateDown (columnOf g col) (jsNormShift shift g.length)).length
      = g.length := by rw [rotateDown_length, columnOf_length]
  rw [hg2]
  exact columnOf_writeColumn col g _ hrange hrlen

/-- A successful rotation preserves every row length. -/
theorem moveColumn_row_length (g : Grid) (col : Nat) (shift : Int)
    (g2 : Grid) (h : moveColumn g col shift = some g2) (i : Nat) :
    (g2.getD i []).length = (g.getD i []).length := by
  obtain ⟨hrange, hg2⟩ := moveColumn_eq g col shift g2 h
  have hrlen : (rotateDown (columnOf g col) (jsNormShift shift g.length)).length
      = g.length := by rw [rotateDown_length, columnOf_length]
  rw [hg2, writeColumn_getD col g _ hrlen i]
  simp

/-- Composing two downward rotations adds the shifts modulo the length. -/
theorem rotateDown_add (v : List Char) (s1 s2 : Nat)
    (h1 : s1 ≤ v.length) (h2 : s2 ≤ v.length) :
    rotateDown (rotateDown v s1) s2 = rotateDown v ((s1 + s2) % v.length) := by
  rcases Nat.eq_zero_or_pos v.length with hn | hn
  · rw [List.length_eq_zero.mp hn]
    simp [rotateDown]
  · rw [rotateDown_eq_rotate, rotateDown_eq_rotate, List.length_rotate,
      List.rotate_rotate, rotateDown_eq_rotate]
    rcases Nat.lt_or_ge (s1 + s2) v.length with hlt | hge
    · rw [Nat.mod_eq_of_lt hlt]
      have harg : v.length - s1 + (v.length - s2)
          = v.length + (v.length - (s1 + s2)) := by omega
      rw [harg, ← List.rotate_rotate, List.rotate_length]
    · rcases Nat.lt_or_ge (s1 + s2) (2 * v.length) with hlt2 | hge2
      · have hmod : (s1 + s2) % v.length = s1 + s2 - v.length := by
          rw [Nat.mod_eq_sub_mod hge, Nat.mod_eq_of_lt (by omega)]
        rw [hmod]
        have harg : v.length - s1 + (v.length - s2)
            = v.length - (s1 + s2 - v.length) := by omega
        rw [harg]
      · have hs1 : s1 = v.length := by omega
        have hs2 : s2 = v.length := by omega
        subst hs1
        have hmod : (v.length + s2) % v.length = s2 % v.length := by
          exact Nat.add_mod_left _ _
        rw [hmod, hs2, Nat.mod_self]
        have harg : v.length - v.length + (v.length - v.length) = 0 := by omega
        rw [harg, Nat.sub_zero, List.rotate_zero, List.rotate_length]

/-- The playfield width as the hint scan sees it (`grid[0].length`). -/
def gridWidth (st : GameState) : Nat := (st.grid.headD []).length

/-- Session well-formedness: at least the playfield rows exist, all rows have
the scan width, and the ground truth covers the playfield at that width. -/
def WF (st : GameState) : Prop :=
  PLAYFIELD_ROWS ≤ st.grid.length ∧
    (∀ i < st.grid.length, (st.grid.getD i []).length = gridWidth st) ∧
    (∀ r < PLAYFIELD_ROWS, (st.mask.getD r []).length = gridWidth st) ∧
    (∀ r < PLAYFIELD_ROWS, (st.content.getD r []).length = gridWidth st)

/-- Every column admits some shift in `0 .. numRows - 1` after which its
non-padding playfield rows match ground truth. -/
def Fixable (st : GameState) : Prop :=
  ∀ col < gridWidth st, ∃ s < st.grid.length, columnFixedBy st col s = true

/-- The states reachable from an assembled, filler-replaced session (fresh
hint budget, no locked columns) by player column rotations. -/
inductive Reachable : GameState → Prop
  | base (m : Grid) (f : Nat → Nat → Char) (g : Grid)
      (mask : List (List Bool)) (content : Grid)
      (h : buildGrid m = some (g, mask, content)) :
      Reachable
        { grid := replaceAsterisksWithRandomChars f g, mask := mask,
          content := content, hintsRemaining := 5, lockedColumns := [],
          lastHintedColumn := -1 }
  | step (st : GameState) (col : Nat) (shift : Int) (st2 : GameState)
      (hst : Reachable st) (hmv : moveColumnE st col shift = some st2) :
      Reachable st2

/-- Zero or more player rotations between two states. -/
inductive RotSteps : GameState → GameState → Prop
  | refl (st : GameState) : RotSteps st st
  | step (st1 st2 st3 : GameState) (col : Nat) (shift : Int)
      (h : RotSteps st1 st2) (hmv : moveColumnE st2 col shift = some st3) :
      RotSteps st1 st3

theorem replaceAsterisksGo_length (f : Nat → Nat → Char) :
    ∀ (g : Grid) (r0 : Nat), (replaceAsterisksGo f r0 g).length = g.length := by
  intro g
  induction g with
  | nil => intro r0; rfl
  | cons row rest ih => intro r0; simp [replaceAsterisksGo, ih]

/-- `columnFixedBy` only depends on the grid through the extracted column and
the row count. -/
theorem columnFixedBy_congr (stA stB : GameState) (col : Nat)
    (hmask : stB.mask = stA.mask) (hcontent : stB.content = stA.content)
    (hlen : stB.grid.length = stA.grid.length)
    (hcol : columnOf stB.grid col = columnOf stA.grid col) (s : Nat) :
    columnFixedBy stB col s = columnFixedBy stA col s := by
  simp only [columnFixedBy, hmask, hcontent, hlen, hcol]

theorem rotSteps_locked (st st2 : GameState) (h : RotSteps st st2) :
    st2.lockedColumns = st.lockedColumns := by
  induction h with
  | refl => rfl
  | step stA stB col shift hsteps hmv ih =>
    rw [← ih]
    rw [moveColumnE] at hmv
    split at hmv
    · rw [← Option.some_inj.mp hmv]
    · cases hcm : moveColumn stA.grid col shift with
      | none => rw [hcm] at hmv; exact absurd hmv (by simp)
      | some g2 =>
        rw [hcm] at hmv
        simp only [Option.map_some'] at hmv
        rw [← Option.some_inj.mp hmv]

theorem headD_eq_getD (l : Grid) : l.headD [] = l.getD 0 [] := by
  cases l <;> rfl

/-- Deconstruct a successful `buildGrid`. -/
theorem buildGrid_eq (m : Grid) (g : Grid) (mask : List (List Bool))
    (content : Grid) (h : buildGrid m = some (g, mask, content)) :
    g = buildGridRows m ∧ PLAYFIELD_ROWS ≤ g.length ∧
      mask = (g.take PLAYFIELD_ROWS).map
        (fun row => row.map (fun ch => ch == '*')) ∧
      content = g.take PLAYFIELD_ROWS := by
  rw [buildGrid] at h
  by_cases hge : PLAYFIELD_ROWS ≤ (buildGridRows m).length
  · rw [if_pos hge] at h
    simp only [Option.some.injEq, Prod.mk.injEq] at h
    obtain ⟨hg, hmask, hcontent⟩ := h
    subst hg
    exact ⟨rfl, hge, hmask.symm, hcontent.symm⟩
  · rw [if_neg hge] at h
    exact absurd h (by simp)

theorem replaceAsterisks_length (f : Nat → Nat → Char) (g : Grid) :
    (replaceAsterisksWithRandomChars f g).length = g.length :=
  replaceAsterisksGo_length f g 0

theorem replaceAsterisks_row_length (f : Nat → Nat → Char) (g : Grid) (i : Nat) :
    ((replaceAsterisksWithRandomChars f g).getD i []).length
      = (g.getD i []).length := by
  rw [replaceAsterisksWithRandomChars, replaceAsterisksGo_getD,
    replaceCellsGo_length]

theorem buildGridRows_getD_length (m : Grid) (i : Nat)
    (hi : i < (buildGridRows m).length) :
    ((buildGridRows m).getD i []).length = findLongestRow m := by
  rw [List.getD_eq_getElem _ _ hi]
  exact buildGridRows_row_length m _ (List.getElem_mem hi)

/-- Every state reachable by rotations from a freshly assembled session is
well-formed and every column can be fixed by some single rotation. -/
theorem reachable_WF_and_Fixable (st : GameState) (h : Reachable st) :
    WF st ∧ Fixable st := by
  induction h with
  | base m f g mask content hbg =>
    obtain ⟨hg, hge, hmask, hcontent⟩ := buildGrid_eq m g mask content hbg
    subst hg
    subst hmask
    subst hcontent
    have h4 : PLAYFIELD_ROWS = 4 := rfl
    have hglen : (replaceAsterisksWithRandomChars f (buildGridRows m)).length
        = (buildGridRows m).length := replaceAsterisks_length f _
    have hwidth :
        gridWidth
          { grid := replaceAsterisksWithRandomChars f (buildGridRows m),
            mask := (List.take PLAYFIELD_ROWS (buildGridRows m)).map
              (fun row => row.map (fun ch => ch == '*')),
            content := List.take PLAYFIELD_ROWS (buildGridRows m),
            hintsRemaining := 5, lockedColumns := [], lastHintedColumn := -1 }
        = findLongestRow m := by
      rw [gridWidth, headD_eq_getD, replaceAsterisks_row_length,
        buildGridRows_getD_length m 0 (by omega)]
    have htakelen : (List.take PLAYFIELD_ROWS (buildGridRows m)).length
        = PLAYFIELD_ROWS := by
      rw [List.length_take]
      omega
    constructor
    · refine ⟨by rw [hglen]; exact hge, ?_, ?_, ?_⟩
      · intro i hi
        rw [hwidth, replaceAsterisks_row_length,
          buildGridRows_getD_length m i (by rwa [hglen] at hi)]
      · intro r hr
        rw [hwidth]
        simp only
        rw [getD_map_rows _ _ (by omega), getD_take_of_lt _ _ _ hr,
          List.length_map, buildGridRows_getD_length m r (by omega)]
      · intro r hr
        rw [hwidth]
        simp only
        rw [getD_take_of_lt _ _ _ hr, buildGridRows_getD_length m r (by omega)]
    · intro col hcol
      rw [hwidth] at hcol
      refine ⟨0, by simp only; omega, ?_⟩
      rw [columnFixedBy]
      simp only
      rw [List.all_eq_true]
      intro r hrmem
      have hr : r < PLAYFIELD_ROWS := List.mem_range.mp hrmem
      have hrowlen : ((buildGridRows m).getD r []).length = findLongestRow m :=
        buildGridRows_getD_length m r (by omega)
      have hmaskr : ((List.take PLAYFIELD_ROWS (buildGridRows m)).map
          (fun row => row.map (fun ch => ch == '*'))).getD r []
          = ((buildGridRows m).getD r []).map (fun ch => ch == '*') := by
        rw [getD_map_rows _ _ (by omega), getD_take_of_lt _ _ _ hr]
      have hcontr : (List.take PLAYFIELD_ROWS (buildGridRows m)).getD r []
          = (buildGridRows m).getD r [] := getD_take_of_lt _ _ _ hr
      have hzmod : (0 : Nat) % (replaceAsterisksWithRandomChars f
          (buildGridRows m)).length = 0 := Nat.zero_mod _
      rw [hzmod, rotateDown_zero, hmaskr, hcontr]
      rw [getD_map_cells _ _ (by rw [hrowlen]; exact hcol)]
      by_cases hstar : ((buildGridRows m).getD r []).getD col ' ' = '*'
      · rw [hstar]
        simp
      · have hbit : (((buildGridRows m).getD r []).getD col ' ' == '*') = false := by
          simpa using hstar
        rw [hbit]
        rw [columnOf_getD]
        rw [replaceAsterisksWithRandomChars, replaceAsterisksGo_getD,
          replaceCellsGo_getD, if_neg hstar]
        simp
  | step stA col shift stB hst hmv ih =>
    obtain ⟨hwf, hfix⟩ := ih
    rw [moveColumnE] at hmv
    split at hmv
    · rw [← Option.some_inj.mp hmv]
      exact ⟨hwf, hfix⟩
    · cases hcm : moveColumn stA.grid col shift with
      | none => rw [hcm] at hmv; exact absurd hmv (by simp)
      | some g2 =>
        rw [hcm] at hmv
        simp only [Option.map_some'] at hmv
        have hstB : stB = { stA with grid := g2 } := (Option.some_inj.mp hmv).symm
        subst hstB
        have h4 : PLAYFIELD_ROWS = 4 := rfl
        have hlen2 : g2.length = stA.grid.length :=
          moveColumn_length _ _ _ _ hcm
        have hlen2p : ({ stA with grid := g2 } : GameState).grid.length
            = stA.grid.length := hlen2
        have hwidth2 : gridWidth { stA with grid := g2 } = gridWidth stA := by
          rw [gridWidth, gridWidth, headD_eq_getD, headD_eq_getD]
          show (g2.getD 0 []).length = (stA.grid.getD 0 []).length
          exact moveColumn_row_length _ _ _ _ hcm 0
        obtain ⟨hge, hrows, hmaskw, hcontw⟩ := hwf
        have hpos : 0 < stA.grid.length := by omega
        constructor
        · refine ⟨by rw [hlen2p]; exact hge, ?_, ?_, ?_⟩
          · intro i hi
            rw [hwidth2]
            rw [hlen2p] at hi
            have : (g2.getD i []).length = (stA.grid.getD i []).length :=
              moveColumn_row_length _ _ _ _ hcm i
            rw [show ({ stA with grid := g2 } : GameState).grid = g2 from rfl, this]
            exact hrows i hi
          · intro r hr
            rw [hwidth2]
            exact hmaskw r hr
          · intro r hr
            rw [hwidth2]
            exact hcontw r hr
        · intro c2 hc2
          rw [hwidth2] at hc2
          obtain ⟨s, hsn, hfixs⟩ := hfix c2 hc2
          by_cases hcc : c2 = col
          · subst hcc
            have hs1 : jsNormShift shift stA.grid.length < stA.grid.length :=
              jsNormShift_lt _ _ hpos
            refine ⟨(s % stA.grid.length +
              (stA.grid.length - jsNormShift shift stA.grid.length)) %
                stA.grid.length, ?_, ?_⟩
            · rw [hlen2p]
              exact Nat.mod_lt _ hpos
            · have hvlen : (columnOf stA.grid c2).length = stA.grid.length :=
                columnOf_length _ _
              have hs2lt : (s % stA.grid.length +
                  (stA.grid.length - jsNormShift shift stA.grid.length)) %
                    stA.grid.length < stA.grid.length := Nat.mod_lt _ hpos
              have hmodkey : (jsNormShift shift stA.grid.length +
                  (s % stA.grid.length +
                    (stA.grid.length - jsNormShift shift stA.grid.length)) %
                      stA.grid.length) % stA.grid.length
                  = s % stA.grid.length := by
                have key : (jsNormShift shift stA.grid.length +
                    (s % stA.grid.length +
                      (stA.grid.length - jsNormShift shift stA.grid.length)) %
                        stA.grid.length) % stA.grid.length
                    = (jsNormShift shift stA.grid.length +
                      (s % stA.grid.length +
                        (stA.grid.length - jsNormShift shift stA.grid.length))) %
                          stA.grid.length := by
                  conv_lhs => rw [Nat.add_mod]
                  conv_rhs => rw [Nat.add_mod]
                  rw [Nat.mod_mod_of_dvd _ dvd_rfl]
                rw [key]
                have harith : jsNormShift shift stA.grid.length +
                    (s % stA.grid.length +
                      (stA.grid.length - jsNormShift shift stA.grid.length))
                    = stA.grid.length + s % stA.grid.length := by omega
                rw [harith, Nat.add_mod_left]
                exact Nat.mod_mod_of_dvd _ dvd_rfl
              have hrot : rotateDown (columnOf g2 c2)
                  ((s % stA.grid.length +
                    (stA.grid.length - jsNormShift shift stA.grid.length)) %
                      stA.grid.length % g2.length)
                  = rotateDown (columnOf stA.grid c2)
                    (s % stA.grid.length) := by
                rw [hlen2, Nat.mod_eq_of_lt hs2lt,
                  moveColumn_columnOf_self _ _ _ _ hcm]
                rw [rotateDown_add _ _ _ (by omega) (by omega)]
                rw [hvlen, hmodkey]
              rw [columnFixedBy] at hfixs ⊢
              simp only at hfixs ⊢
              rw [hrot]
              exact hfixs
          · refine ⟨s, by rw [hlen2p]; omega, ?_⟩
            rw [columnFixedBy_congr stA { stA with grid := g2 } c2 rfl rfl
              hlen2p (moveColumn_columnOf_other _ _ _ _ hcm c2 hcc)]
            exact hfixs

/-- C7 (confirmed): from any state reachable by rotations from the
assembled, filler-replaced session, a hint with a positive budget and at
least one mismatched column (1) makes every non-padding playfield cell of the
chosen column match ground truth, (2) locks that column so that every later
rotation attempt on it (after any further rotations) is a no-op, and
(3) decrements the hint budget by exactly one. -/
theorem C7_useHint_fixes_and_locks (st : GameState) (pick : Nat)
    (hreach : Reachable st) (hbudget : 0 < st.hintsRemaining)
    (hne : incorrectColumns st ≠ [])
    (hpick : pick < (incorrectColumns st).length) :
    (∀ r < PLAYFIELD_ROWS,
      ((useHint st pick).mask.getD r []).getD
          ((incorrectColumns st).getD pick 0) false = false →
        ((useHint st pick).grid.getD r []).getD
            ((incorrectColumns st).getD pick 0) ' '
          = ((useHint st pick).content.getD r []).getD
              ((incorrectColumns st).getD pick 0) ' ') ∧
      ((incorrectColumns st).getD pick 0) ∈ (useHint st pick).lockedColumns ∧
      (useHint st pick).hintsRemaining = st.hintsRemaining - 1 ∧
      (∀ st3 : GameState, RotSteps (useHint st pick) st3 → ∀ shift : Int,
        moveColumnE st3 ((incorrectColumns st).getD pick 0) shift = some st3) := by
  obtain ⟨hwf, hfix⟩ := reachable_WF_and_Fixable st hreach
  obtain ⟨hge, hrows, hmaskw, hcontw⟩ := hwf
  have h4 : PLAYFIELD_ROWS = 4 := rfl
  have hpos : 0 < st.grid.length := by omega
  have hcmem : (incorrectColumns st).getD pick 0 ∈ incorrectColumns st := by
    rw [List.getD_eq_getElem _ _ hpick]
    exact List.getElem_mem hpick
  have hcw : (incorrectColumns st).getD pick 0 < gridWidth st := by
    have hin := List.mem_of_mem_filter
      (by rw [incorrectColumns] at hcmem; exact hcmem)
    rw [gridWidth]
    exact List.mem_range.mp hin
  obtain ⟨s, hsn, hfixs⟩ := hfix _ hcw
  have hfindsome : ((List.range st.grid.length).find?
      (fun s2 => columnFixedBy st ((incorrectColumns st).getD pick 0) s2)).isSome :=
    List.find?_isSome.mpr ⟨s, List.mem_range.mpr hsn, hfixs⟩
  obtain ⟨s0, hfind⟩ := Option.isSome_iff_exists.mp hfindsome
  have hp0 : columnFixedBy st ((incorrectColumns st).getD pick 0) s0 = true :=
    List.find?_some hfind
  have hemp : (incorrectColumns st).isEmpty = false := by
    cases hI : incorrectColumns st with
    | nil => exact absurd hI hne
    | cons a as => rfl
  have hres : useHint st pick =
      { st with
        grid := writeColumn st.grid ((incorrectColumns st).getD pick 0)
          (rotateDown (columnOf st.grid ((incorrectColumns st).getD pick 0))
            (s0 % st.grid.length))
        lastHintedColumn := (((incorrectColumns st).getD pick 0 : Nat) : Int)
        lockedColumns := st.lockedColumns ++ [(incorrectColumns st).getD pick 0]
        hintsRemaining := st.hintsRemaining - 1 } := by
    rw [useHint, if_neg (by omega)]
    simp only [hemp, Bool.false_eq_true, if_false, hfind]
  have hrlen : (rotateDown (columnOf st.grid ((incorrectColumns st).getD pick 0))
      (s0 % st.grid.length)).length = st.grid.length := by
    rw [rotateDown_length, columnOf_length]
  refine ⟨?_, ?_, ?_, ?_⟩
  · intro r hr hmk
    rw [hres] at hmk ⊢
    simp only at hmk ⊢
    rw [writeColumn_getD _ st.grid _ hrlen r]
    have hrowlen : (st.grid.getD r []).length = gridWidth st := hrows r (by omega)
    have hcl : (incorrectColumns st).getD pick 0 < (st.grid.getD r []).length := by
      omega
    rw [List.getD_eq_getElem _ _ (by simpa using hcl), List.getElem_set_self
      (by simpa using hcl)]
    rw [columnFixedBy] at hp0
    simp only [List.all_eq_true] at hp0
    have := hp0 r (List.mem_range.mpr (by omega))
    rcases Bool.or_eq_true_iff.mp this with hbit | hbeq
    · rw [hmk] at hbit
      simp at hbit
    · exact eq_of_beq hbeq
  · rw [hres]
    simp
  · rw [hres]
  · intro st3 hsteps shift
    have hlock3 : st3.lockedColumns = (useHint st pick).lockedColumns :=
      rotSteps_locked _ _ hsteps
    have hmem3 : (incorrectColumns st).getD pick 0 ∈ st3.lockedColumns := by
      rw [hlock3, hres]
      simp
    rw [moveColumnE, if_pos (List.elem_iff.mpr hmem3)]

/-- Witness for C7: a 1-column, 4-row session scrambled by one rotation,
then hinted. -/
theorem C7_useHint_fixes_and_locks_witness :
    (∀ r < PLAYFIELD_ROWS,
      ((useHint
          { grid := [['Z'], ['A'], ['B'], ['Z']],
            mask := [[false], [false], [true], [true]],
            content := [['A'], ['B'], ['*'], ['*']],
            hintsRemaining := 5, lockedColumns := [],
            lastHintedColumn := -1 } 0).mask.getD r []).getD
          ((incorrectColumns
            { grid := [['Z'], ['A'], ['B'], ['Z']],
              mask := [[false], [false], [true], [true]],
              content := [['A'], ['B'], ['*'], ['*']],
              hintsRemaining := 5, lockedColumns := [],
              lastHintedColumn := -1 }).getD 0 0) false = false →
        ((useHint
            { grid := [['Z'], ['A'], ['B'], ['Z']],
              mask := [[false], [false], [true], [true]],
              content := [['A'], ['B'], ['*'], ['*']],
              hintsRemaining := 5, lockedColumns := [],
              lastHintedColumn := -1 } 0).grid.getD r []).getD
            ((incorrectColumns
              { grid := [['Z'], ['A'], ['B'], ['Z']],
                mask := [[false], [false], [true], [true]],
                content := [['A'], ['B'], ['*'], ['*']],
                hintsRemaining := 5, lockedColumns := [],
                lastHintedColumn := -1 }).getD 0 0) ' '
          = ((useHint
              { grid := [['Z'], ['A'], ['B'], ['Z']],
                mask := [[false], [false], [true], [true]],
                content := [['A'], ['B'], ['*'], ['*']],
                hintsRemaining := 5, lockedColumns := [],
                lastHintedColumn := -1 } 0).content.getD r []).getD
              ((incorrectColumns
                { grid := [['Z'], ['A'], ['B'], ['Z']],
                  mask := [[false], [false], [true], [true]],
                  content := [['A'], ['B'], ['*'], ['*']],
                  hintsRemaining := 5, lockedColumns := [],
                  lastHintedColumn := -1 }).getD 0 0) ' ') ∧
      ((incorrectColumns
        { grid := [['Z'], ['A'], ['B'], ['Z']],
          mask := [[false], [false], [true], [true]],
          content := [['A'], ['B'], ['*'], ['*']],
          hintsRemaining := 5, lockedColumns := [],
          lastHintedColumn := -1 }).getD 0 0) ∈
        (useHint
          { grid := [['Z'], ['A'], ['B'], ['Z']],
            mask := [[false], [false], [true], [true]],
            content := [['A'], ['B'], ['*'], ['*']],
            hintsRemaining := 5, lockedColumns := [],
            lastHintedColumn := -1 } 0).lockedColumns ∧
      (useHint
        { grid := [['Z'], ['A'], ['B'], ['Z']],
          mask := [[false], [false], [true], [true]],
          content := [['A'], ['B'], ['*'], ['*']],
          hintsRemaining := 5, lockedColumns := [],
          lastHintedColumn := -1 } 0).hintsRemaining = 5 - 1 ∧
      (∀ st3 : GameState, RotSteps (useHint
          { grid := [['Z'], ['A'], ['B'], ['Z']],
            mask := [[false], [false], [true], [true]],
            content := [['A'], ['B'], ['*'], ['*']],
            hintsRemaining := 5, lockedColumns := [],
            lastHintedColumn := -1 } 0) st3 → ∀ shift : Int,
        moveColumnE st3 ((incorrectColumns
          { grid := [['Z'], ['A'], ['B'], ['Z']],
            mask := [[false], [false], [true], [true]],
            content := [['A'], ['B'], ['*'], ['*']],
            hintsRemaining := 5, lockedColumns := [],
            lastHintedColumn := -1 }).getD 0 0) shift = some st3) :=
  C7_useHint_fixes_and_locks
    { grid := [['Z'], ['A'], ['B'], ['Z']],
      mask := [[false], [false], [true], [true]],
      content := [['A'], ['B'], ['*'], ['*']],
      hintsRemaining := 5, lockedColumns := [], lastHintedColumn := -1 } 0
    (Reachable.step
      { grid := replaceAsterisksWithRandomChars (fun _ _ => 'Z')
          [['A'], ['B'], ['*'], ['*']],
        mask := [[false], [false], [true], [true]],
        content := [['A'], ['B'], ['*'], ['*']],
        hintsRemaining := 5, lockedColumns := [], lastHintedColumn := -1 }
      0 1
      { grid := [['Z'], ['A'], ['B'], ['Z']],
        mask := [[false], [false], [true], [true]],
        content := [['A'], ['B'], ['*'], ['*']],
        hintsRemaining := 5, lockedColumns := [], lastHintedColumn := -1 }
      (Reachable.base [['A'], ['B']] (fun _ _ => 'Z')
        [['A'], ['B'], ['*'], ['*']] [[false], [false], [true], [true]]
        [['A'], ['B'], ['*'], ['*']] rfl)
      (by decide))
    (by decide) (by decide) (by decide)

/-! ## Scramble (`shuffleBoard`) -/

/-- The move-count draw of `shuffleBoard`:
`15 + Math.floor(Math.random() * 15)`, with `r` the `Math.random()` result in
`[0, 1)`. -/
def shuffleMoves (r : ℚ) : Nat := 15 + (Int.floor (r * 15)).toNat

/-- The per-move shift draw of `shuffleBoard`:
`1 + Math.floor(Math.random() * (numRows - 1))`. -/
def shuffleShift (r : ℚ) (numRows : Nat) : Nat :=
  1 + (Int.floor (r * ((numRows : ℚ) - 1))).toNat

/-- A nonnegative in-range integer shift normalizes to plain `%`, so the
scramble's inline rotation (`randomShift % numRows`) has exactly the player
rotation's semantics. -/
theorem jsNormShift_ofNat (k numRows : Nat) (h : 0 < numRows) :
    jsNormShift (k : Int) numRows = k % numRows := by
  have he := jsNormShift_eq_emod (k : Int) numRows h
  have : ((k : Int) % (numRows : Int)) = ((k % numRows : Nat) : Int) := by
    push_cast
    rfl
  omega

/-- C8 (code_bug): the scramble count `15 + floor(r * 15)` lies in `[15, 29]`
for every random draw `r ∈ [0, 1)` — the value 30 is never drawn, although
the code's own comment ("15-30 random moves") and the spec say the count is
drawn from 15..30 inclusive.  The per-move shift draw does lie in
`1 .. numRows - 1`, and the scramble's rotation is the player rotation
(`moveColumn` on an unlocked in-range column with the same normalized
shift). -/
theorem C8_shuffle_count_never_30 (r : ℚ) (h0 : 0 ≤ r) (h1 : r < 1) :
    (15 ≤ shuffleMoves r ∧ shuffleMoves r ≤ 29 ∧ shuffleMoves r ≠ 30) ∧
      (∀ (r2 : ℚ) (numRows : Nat), 0 ≤ r2 → r2 < 1 → 2 ≤ numRows →
        1 ≤ shuffleShift r2 numRows ∧ shuffleShift r2 numRows ≤ numRows - 1) ∧
      (∀ (g : Grid) (col : Nat) (k : Nat), (∀ row ∈ g, col < row.length) →
        0 < g.length →
        moveColumn g col (k : Int)
          = some (writeColumn g col
              (rotateDown (columnOf g col) (k % g.length)))) := by
  refine ⟨?_, ?_, ?_⟩
  · have hf0 : 0 ≤ Int.floor (r * 15) := by
      apply Int.floor_nonneg.mpr
      positivity
    have hflt : Int.floor (r * 15) < 15 := by
      rw [Int.floor_lt]
      push_cast
      nlinarith
    unfold shuffleMoves
    omega
  · intro r2 numRows h02 h12 hnr
    have hf0 : 0 ≤ Int.floor (r2 * ((numRows : ℚ) - 1)) := by
      apply Int.floor_nonneg.mpr
      have : (1 : ℚ) ≤ (numRows : ℚ) := by exact_mod_cast hnr.trans' (by norm_num)
      nlinarith
    have hflt : Int.floor (r2 * ((numRows : ℚ) - 1)) < (numRows : Int) - 1 := by
      rw [Int.floor_lt]
      push_cast
      have h2q : (2 : ℚ) ≤ (numRows : ℚ) := by exact_mod_cast hnr
      have hposq : (0 : ℚ) < (numRows : ℚ) - 1 := by linarith
      calc r2 * ((numRows : ℚ) - 1) < 1 * ((numRows : ℚ) - 1) :=
            mul_lt_mul_of_pos_right h12 hposq
        _ = (numRows : ℚ) - 1 := one_mul _
    unfold shuffleShift
    omega
  · intro g col k hrange hpos
    have hall : g.all (fun row => col < row.length) = true := by
      rw [List.all_eq_true]
      intro x hx
      simpa using hrange x hx
    rw [moveColumn, if_pos hall, jsNormShift_ofNat k g.length hpos]

/-- Witness for C8 at the draw `r = 74/75` (the largest-count draw, giving
29). -/
theorem C8_shuffle_count_never_30_witness :
    (15 ≤ shuffleMoves (74 / 75) ∧ shuffleMoves (74 / 75) ≤ 29 ∧
      shuffleMoves (74 / 75) ≠ 30) ∧
      (∀ (r2 : ℚ) (numRows : Nat), 0 ≤ r2 → r2 < 1 → 2 ≤ numRows →
        1 ≤ shuffleShift r2 numRows ∧ shuffleShift r2 numRows ≤ numRows - 1) ∧
      (∀ (g : Grid) (col : Nat) (k : Nat), (∀ row ∈ g, col < row.length) →
        0 < g.length →
        moveColumn g col (k : Int)
          = some (writeColumn g col
              (rotateDown (columnOf g col) (k % g.length)))) :=
  C8_shuffle_count_never_30 (74 / 75) (by norm_num) (by norm_num)

/-! ## Headline splitting (`findBestSplitPoint`, `splitHeadlineIntoMatrix`) -/

/-- `Math.abs(i - targetIndex)` on naturals. -/
def natDist (a b : Nat) : Nat := max a b - min a b

/-- The whitespace characters JS `trim` strips, among those a headline can
contain (plain space and the common ASCII control whitespace). -/
def isJsSpace (c : Char) : Bool :=
  c = ' ' || c = '\t' || c = '\n' || c = '\r'

/-- JS `String.prototype.trim` on a character list. -/
def jsTrim (l : List Char) : List Char :=
  ((l.dropWhile isJsSpace).reverse.dropWhile isJsSpace).reverse

/-- JS `String.prototype.substring`: clamps both indices to the string and
swaps them when `start > end`. -/
def jsSubstring (text : List Char) (a b : Nat) : List Char :=
  let a2 := min a text.length
  let b2 := min b text.length
  (text.drop (min a2 b2)).take (max a2 b2 - min a2 b2)

/-- The space scan of `findBestSplitPoint`: walk the window indices in
ascending order keeping the strictly closest space to the target (ties keep
the earlier index, as the JS strict `<` does); `none` models the
`bestSpaceIndex = -1` / `Infinity` sentinels.  All scanned indices are within
the text, so the `getD` default (a non-space) is never consulted. -/
def scanSpaces (text : List Char) (targetIndex : Nat) :
    List Nat → Option (Nat × Nat) → Option (Nat × Nat)
  | [], best => best
  | i :: rest, best =>
    if text.getD i '?' = ' ' then
      let d := natDist i targetIndex
      match best with
      | none => scanSpaces text targetIndex rest (some (i, d))
      | some (bi, bd) =>
        if d < bd then scanSpaces text targetIndex rest (some (i, d))
        else scanSpaces text targetIndex rest (some (bi, bd))
    else scanSpaces text targetIndex rest best

/-- The window `[max(0, t - tol), min(len, t + tol))` of the space scan. -/
def findSpace (text : List Char) (targetIndex tol : Nat) : Option (Nat × Nat) :=
  scanSpaces text targetIndex
    (List.range' (targetIndex - tol)
      (min text.length (targetIndex + tol) - (targetIndex - tol))) none

/-- The backward scan for the enclosing word's start
(`while wordStart > 0 && text[wordStart-1] !== ' '`); an index beyond the
text reads `undefined`, which is not a space, so the scan continues — the
`'?'` default models that. -/
def findWordStart (text : List Char) : Nat → Nat
  | 0 => 0
  | p + 1 => if text.getD p '?' = ' ' then p + 1 else findWordStart text p

/-- The forward scan for the enclosing word's end
(`while wordEnd < text.length && text[wordEnd] !== ' '`). -/
def findWordEnd (text : List Char) (e : Nat) : Nat :=
  e + ((text.drop e).takeWhile (fun c => !(c = ' '))).length

/-- The cumulative syllable-boundary scan: the loop over
`syllables[0 .. length-2]` keeping the boundary offset strictly closest to
the target; `none` models the `Infinity` sentinel. -/
def bestBoundaryGo (target : Nat) :
    List (List Char) → Nat → Option (Nat × Nat) → Option (Nat × Nat)
  | [], _, best => best
  | [_], _, best => best
  | syl :: next :: rest, currentPos, best =>
    let cp := currentPos + syl.length
    let d := natDist cp target
    match best with
    | none => bestBoundaryGo target (next :: rest) cp (some (cp, d))
    | some (bi, bd) =>
      if d < bd then bestBoundaryGo target (next :: rest) cp (some (cp, d))
      else bestBoundaryGo target (next :: rest) cp (some (bi, bd))

/-- `findBestSplitPoint`: prefer the closest space in the window; otherwise
split the enclosing word at the syllable boundary closest to the target,
defaulting to the target itself when the word has no internal boundary. -/
def findBestSplitPoint (text : List Char) (targetIndex tol : Nat) : Nat × Bool :=
  match findSpace text targetIndex tol with
  | some (bi, _) => (bi, false)
  | none =>
    let wordStart := findWordStart text targetIndex
    let wordEnd := findWordEnd text targetIndex
    let word := jsSubstring text wordStart wordEnd
    let syllables := splitFinnishSyllables word
    match bestBoundaryGo targetIndex syllables wordStart none with
    | some (bi, _) => (bi, true)
    | none => (targetIndex, true)

/-- `Math.round(startIndex + headline.length / numRows)` in exact integer
arithmetic: `⌊s + L/n + 1/2⌋ = (2·n·s + 2·L + n) / (2·n)`.  (As argued in
the header, the JS double computation rounds identically for the row counts
2, 3, 4 in use.) -/
def targetEnd (startIndex L numRows : Nat) : Nat :=
  (2 * numRows * startIndex + 2 * L + numRows) / (2 * numRows)

/-- Which kind of break produced a row of the split. -/
inductive RowKind where
  | mid : RowKind
  | space : RowKind
  | last : RowKind
  deriving DecidableEq, Repr

/-- The row loop of `splitHeadlineIntoMatrix`, instrumented: each iteration
records the trimmed segment BEFORE the hyphen marker is appended, together
with the kind of break.  The countdown `k` is `numRows - i`, so `k = 1` is
the final absorb-everything row. -/
def splitRowsInst (text : List Char) (L numRows : Nat) :
    Nat → Nat → List (List Char × RowKind)
  | _, 0 => []
  | startIndex, 1 =>
    [(jsTrim (jsSubstring text startIndex text.length), RowKind.last)]
  | startIndex, k + 2 =>
    let res := findBestSplitPoint text (targetEnd startIndex L numRows) 20
    let seg := jsTrim (jsSubstring text startIndex res.1)
    (seg, if res.2 then RowKind.mid else RowKind.space) ::
      splitRowsInst text L numRows (if res.2 then res.1 else res.1 + 1) (k + 1)

/-- The row loop of `splitHeadlineIntoMatrix` exactly as in the source:
append the hyphen marker on a mid-word break, keep only non-empty rows,
advance past the consumed space on a word-boundary break.  (A JS row is a
list of one-character cells; a cell is modelled as the character itself, so
`substring.split('').map(char => [char])` is the identity here.) -/
def splitRowsPlain (text : List Char) (L numRows : Nat) : Nat → Nat → Grid
  | _, 0 => []
  | startIndex, 1 =>
    let sub := jsTrim (jsSubstring text startIndex text.length)
    if sub.length > 0 then [sub] else []
  | startIndex, k + 2 =>
    let res := findBestSplitPoint text (targetEnd startIndex L numRows) 20
    let sub := jsTrim (jsSubstring text startIndex res.1)
    let sub2 := if res.2 then sub ++ ['-'] else sub
    (if sub2.length > 0 then [sub2] else []) ++
      splitRowsPlain text L numRows (if res.2 then res.1 else res.1 + 1) (k + 1)

/-- `splitHeadlineIntoMatrix`. -/
def splitHeadlineIntoMatrix (headline : List Char) (numRows : Nat) : Grid :=
  splitRowsPlain headline headline.length numRows 0 numRows

/-- Erase the instrumentation: re-append the inserted hyphen on mid-word
rows and drop empty rows, recovering the produced matrix. -/
def eraseInst (rows : List (List Char × RowKind)) : Grid :=
  rows.filterMap fun pr =>
    let s2 := if pr.2 = RowKind.mid then pr.1 ++ ['-'] else pr.1
    if s2.length > 0 then some s2 else none

/-- What one produced row contributes to the reconstruction: a mid-word
row its segment (hyphen stripped), a word-boundary row its segment plus the
one consumed space (nothing when the row was empty and hence dropped), the
final row its segment. -/
def rowContribution (pr : List Char × RowKind) : List Char :=
  match pr.2 with
  | RowKind.mid => pr.1
  | RowKind.space => if pr.1.isEmpty then [] else pr.1 ++ [' ']
  | RowKind.last => pr.1

/-- The reconstruction the spec describes: concatenate the produced row
segments, stripping the inserted hyphen of a mid-word row and reinserting
the one consumed space of each produced word-boundary row. -/
def reconInst (rows : List (List Char × RowKind)) : List Char :=
  (rows.map rowContribution).flatten

/-- The well-behavedness check of a split trace: every computed break lies
within the text at a non-decreasing position, a word-boundary break lands on
an actual space, and no segment edge touches whitespace (so trimming loses
nothing).  Doubled, leading or trailing spaces in the headline violate
this. -/
def splitCleanGo (text : List Char) (L numRows : Nat) : Nat → Nat → Bool
  | _, 0 => true
  | startIndex, 1 =>
    decide (startIndex ≤ text.length) &&
      (decide (startIndex = text.length) ||
        (!isJsSpace (text.getD startIndex '?') &&
          !isJsSpace (text.getD (text.length - 1) '?')))
  | startIndex, k + 2 =>
    let res := findBestSplitPoint text (targetEnd startIndex L numRows) 20
    let e := res.1
    (if res.2 then
      decide (startIndex ≤ e) && decide (e ≤ text.length) &&
        (decide (startIndex = e) ||
          (!isJsSpace (text.getD startIndex '?') &&
            !isJsSpace (text.getD (e - 1) '?')))
    else
      decide (startIndex + 1 ≤ e) && decide (e < text.length) &&
        decide (text.getD e '?' = ' ') &&
        !isJsSpace (text.getD startIndex '?') &&
        !isJsSpace (text.getD (e - 1) '?')) &&
      splitCleanGo text L numRows (if res.2 then e else e + 1) (k + 1)

theorem jsSubstring_of_le (text : List Char) (a b : Nat) (hab : a ≤ b)
    (hbL : b ≤ text.length) :
    jsSubstring text a b = (text.drop a).take (b - a) := by
  rw [jsSubstring]
  have ha2 : min a text.length = a := by omega
  have hb2 : min b text.length = b := by omega
  rw [ha2, hb2, Nat.min_eq_left hab, Nat.max_eq_right hab]

theorem drop_take_append_drop (text : List Char) (s e : Nat) (hse : s ≤ e) :
    (text.drop s).take (e - s) ++ text.drop e = text.drop s := by
  have h := List.take_append_drop (e - s) (text.drop s)
  rw [List.drop_drop] at h
  rw [show s + (e - s) = e by omega] at h
  exact h

theorem drop_take_length (text : List Char) (s e : Nat) (heL : e ≤ text.length) :
    ((text.drop s).take (e - s)).length = e - s := by
  simp
  omega

theorem drop_take_getD_zero (text : List Char) (s e : Nat) (hse : s < e)
    (heL : e ≤ text.length) :
    ((text.drop s).take (e - s)).getD 0 '?' = text.getD s '?' := by
  have hlen : ((text.drop s).take (e - s)).length = e - s :=
    drop_take_length text s e heL
  rw [List.getD_eq_getElem _ _ (by omega), List.getD_eq_getElem _ _ (by omega)]
  rw [List.getElem_take, List.getElem_drop]
  congr 1

theorem drop_take_getD_last (text : List Char) (s e : Nat) (hse : s < e)
    (heL : e ≤ text.length) :
    ((text.drop s).take (e - s)).getD (e - s - 1) '?'
      = text.getD (e - 1) '?' := by
  have hlen : ((text.drop s).take (e - s)).length = e - s :=
    drop_take_length text s e heL
  rw [List.getD_eq_getElem _ _ (by omega), List.getD_eq_getElem _ _ (by omega)]
  rw [List.getElem_take, List.getElem_drop]
  congr 1
  omega

theorem getD_reverse_zero (l : List Char) (hne : l ≠ []) :
    l.reverse.getD 0 '?' = l.getD (l.length - 1) '?' := by
  have hlen : 0 < l.length := List.length_pos.mpr hne
  rw [List.getD_eq_getElem _ _ (by simpa using hlen),
    List.getD_eq_getElem _ _ (by omega)]
  rw [List.getElem_reverse]
  congr 1

/-- Trimming is the identity on a list with no whitespace at either edge
(vacuously on the empty list: the `'?'` default is not whitespace). -/
theorem jsTrim_eq_self (l : List Char)
    (h0 : isJsSpace (l.getD 0 '?') = false)
    (h1 : isJsSpace (l.getD (l.length - 1) '?') = false) : jsTrim l = l := by
  cases hl : l with
  | nil => rfl
  | cons a rest =>
    rw [← hl]
    have hne : l ≠ [] := by rw [hl]; simp
    have hdw : l.dropWhile isJsSpace = l := by
      rw [hl]
      rw [List.dropWhile_cons]
      rw [hl] at h0
      simp only [List.getD_cons_zero] at h0
      rw [h0]
      simp
    rw [jsTrim, hdw]
    have hrev : l.reverse.dropWhile isJsSpace = l.reverse := by
      have hrne : l.reverse ≠ [] := by simpa using hne
      cases hr : l.reverse with
      | nil => exact absurd hr hrne
      | cons b rb =>
        rw [List.dropWhile_cons]
        have hb : isJsSpace b = false := by
          have := getD_reverse_zero l hne
          rw [hr] at this
          simp only [List.getD_cons_zero] at this
          rw [this]
          exact h1
        rw [hb]
        simp
    rw [hrev, List.reverse_reverse]

/-- Appending the consumed space extends the taken prefix by one. -/
theorem drop_take_append_space (text : List Char) (s e : Nat) (hse : s ≤ e)
    (heL : e < text.length) (hsp : text.getD e '?' = ' ') :
    (text.drop s).take (e - s) ++ [' '] = (text.drop s).take (e + 1 - s) := by
  have hlt : e - s < (text.drop s).length := by simp; omega
  have hsucc : (text.drop s).take ((e - s) + 1)
      = (text.drop s).take (e - s) ++ ((text.drop s)[e - s]?).toList :=
    List.take_succ
  have hget : (text.drop s)[e - s]? = some ' ' := by
    rw [List.getElem?_eq_getElem hlt, List.getElem_drop]
    rw [List.getD_eq_getElem _ _ (by omega)] at hsp
    simp only [Option.some.injEq]
    rw [← hsp]
    congr 1
    omega
  rw [show e + 1 - s = (e - s) + 1 by omega, hsucc, hget]
  rfl

/-- Erasing the instrumentation recovers the source's row loop exactly. -/
theorem eraseInst_splitRowsInst (text : List Char) (L numRows : Nat) :
    ∀ (k s : Nat),
      eraseInst (splitRowsInst text L numRows s k)
        = splitRowsPlain text L numRows s k := by
  intro k
  induction k with
  | zero => intro s; rfl
  | succ k2 ih =>
    intro s
    cases k2 with
    | zero =>
      simp only [splitRowsInst, splitRowsPlain, eraseInst, List.filterMap_cons,
        List.filterMap_nil]
      by_cases hpos : (jsTrim (jsSubstring text s text.length)).length > 0
      · simp [hpos]
      · simp [hpos]
    | succ k3 =>
      simp only [eraseInst] at ih
      simp only [splitRowsInst, splitRowsPlain, eraseInst, List.filterMap_cons]
      rw [ih]
      cases hmid : (findBestSplitPoint text (targetEnd s L numRows) 20).2 with
      | false =>
        by_cases hpos : (jsTrim (jsSubstring text s
            (findBestSplitPoint text (targetEnd s L numRows) 20).1)).length > 0
        · simp [hmid, hpos]
        · simp [hmid, hpos]
      | true =>
        simp [hmid]

theorem reconInst_cons (pr : List Char × RowKind)
    (rest : List (List Char × RowKind)) :
    reconInst (pr :: rest) = rowContribution pr ++ reconInst rest := by
  rw [reconInst, List.map_cons, List.flatten_cons, reconInst]

theorem rowContribution_mid (seg : List Char) :
    rowContribution (seg, RowKind.mid) = seg := rfl

theorem rowContribution_space (seg : List Char) :
    rowContribution (seg, RowKind.space)
      = if seg.isEmpty then [] else seg ++ [' '] := rfl

theorem rowContribution_last (seg : List Char) :
    rowContribution (seg, RowKind.last) = seg := rfl

theorem drop_take_full (text : List Char) (s : Nat) :
    (text.drop s).take (text.length - s) = text.drop s := by
  rw [← List.length_drop, List.take_length]

/-- The trimmed segment of a clean step is the untrimmed slice of the
headline. -/
theorem clean_segment_eq (text : List Char) (s e : Nat) (hse : s ≤ e)
    (heL : e ≤ text.length)
    (hedge : s = e ∨ (isJsSpace (text.getD s '?') = false ∧
      isJsSpace (text.getD (e - 1) '?') = false)) :
    jsTrim (jsSubstring text s e) = (text.drop s).take (e - s) := by
  rw [jsSubstring_of_le text s e hse heL]
  rcases hedge with hseq | ⟨h0, h1⟩
  · rw [hseq, Nat.sub_self, List.take_zero]
    rfl
  · by_cases hslt : s < e
    · exact jsTrim_eq_self _
        (by rw [drop_take_getD_zero text s e hslt heL]; exact h0)
        (by rw [drop_take_length text s e heL,
              drop_take_getD_last text s e hslt heL]
            exact h1)
    · have hseq : s = e := by omega
      rw [hseq, Nat.sub_self, List.take_zero]
      rfl

/-- On a clean trace the reconstruction of the remaining rows is exactly the
unprocessed suffix of the headline. -/
theorem splitCleanGo_recon (text : List Char) (L numRows : Nat) :
    ∀ (k s : Nat), 1 ≤ k →
      splitCleanGo text L numRows s k = true →
      reconInst (splitRowsInst text L numRows s k) = text.drop s := by
  intro k
  induction k with
  | zero => intro s h1 _; omega
  | succ k2 ih =>
    intro s hk1 hclean
    cases k2 with
    | zero =>
      simp only [splitCleanGo] at hclean
      rw [Bool.and_eq_true] at hclean
      obtain ⟨hsle, hrest⟩ := hclean
      rw [decide_eq_true_eq] at hsle
      rw [splitRowsInst, reconInst_cons, rowContribution_last]
      simp only [reconInst, List.map_nil, List.flatten_nil, List.append_nil]
      rw [Bool.or_eq_true] at hrest
      have hedge : s = text.length ∨ (isJsSpace (text.getD s '?') = false ∧
          isJsSpace (text.getD (text.length - 1) '?') = false) := by
        rcases hrest with hx | hx
        · left; exact decide_eq_true_eq.mp hx
        · right
          rw [Bool.and_eq_true] at hx
          obtain ⟨hxa, hxb⟩ := hx
          rw [Bool.not_eq_true'] at hxa hxb
          exact ⟨hxa, hxb⟩
      rw [clean_segment_eq text s text.length hsle (le_refl _) hedge]
      exact drop_take_full text s
    | succ k3 =>
      rcases hfb : findBestSplitPoint text (targetEnd s L numRows) 20 with ⟨e, midQ⟩
      simp only [splitCleanGo, hfb] at hclean
      rw [Bool.and_eq_true] at hclean
      obtain ⟨hcond, hrec⟩ := hclean
      rw [splitRowsInst, hfb, reconInst_cons]
      cases midQ with
      | true =>
        simp only [if_true] at hcond hrec ⊢
        rw [rowContribution_mid]
        rw [ih e (by omega) hrec]
        rw [Bool.and_eq_true, Bool.and_eq_true] at hcond
        obtain ⟨⟨hse, heL⟩, hrest⟩ := hcond
        rw [decide_eq_true_eq] at hse heL
        rw [Bool.or_eq_true] at hrest
        have hedge : s = e ∨ (isJsSpace (text.getD s '?') = false ∧
            isJsSpace (text.getD (e - 1) '?') = false) := by
          rcases hrest with hx | hx
          · left; exact decide_eq_true_eq.mp hx
          · right
            rw [Bool.and_eq_true] at hx
            obtain ⟨hxa, hxb⟩ := hx
            rw [Bool.not_eq_true'] at hxa hxb
            exact ⟨hxa, hxb⟩
        rw [clean_segment_eq text s e hse heL hedge]
        exact drop_take_append_drop text s e hse
      | false =>
        simp only [Bool.false_eq_true, if_false] at hcond hrec ⊢
        rw [rowContribution_space]
        rw [ih (e + 1) (by omega) hrec]
        rw [Bool.and_eq_true, Bool.and_eq_true, Bool.and_eq_true,
          Bool.and_eq_true] at hcond
        obtain ⟨⟨⟨⟨hse, heL⟩, hsp⟩, h0⟩, h1⟩ := hcond
        rw [decide_eq_true_eq] at hse heL hsp
        rw [Bool.not_eq_true'] at h0 h1
        rw [clean_segment_eq text s e (by omega) (by omega) (Or.inr ⟨h0, h1⟩)]
        have hnemp : ((text.drop s).take (e - s)).isEmpty = false := by
          have hlen : ((text.drop s).take (e - s)).length = e - s :=
            drop_take_length text s e (by omega)
          cases hx : (text.drop s).take (e - s) with
          | nil => rw [hx] at hlen; simp at hlen; omega
          | cons a rest2 => rfl
        rw [hnemp]
        simp only [Bool.false_eq_true, if_false]
        have hde : text.drop e = text.getD e '?' :: text.drop (e + 1) := by
          rw [List.getD_eq_getElem _ _ (by omega)]
          exact List.drop_eq_getElem_cons (by omega)
        have hside : (text.drop s).drop (e - s) = ' ' :: text.drop (e + 1) := by
          rw [List.drop_drop, show s + (e - s) = e by omega, hde, hsp]
        calc ((text.drop s).take (e - s) ++ [' ']) ++ text.drop (e + 1)
            = (text.drop s).take (e - s) ++ (' ' :: text.drop (e + 1)) := by
              rw [List.append_assoc]
              rfl
          _ = (text.drop s).take (e - s) ++ (text.drop s).drop (e - s) := by
              rw [hside]
          _ = text.drop s := List.take_append_drop _ _

/-- The spec's own worked example headline. -/
def c4Example : List Char := "KISSA ISTUU MATOLLA TÄNÄÄN".toList

/-- Claim C4 (corrected): for a headline and a row count in 2..4 whose
computed split trace is clean — every break the splitter picks lies in
range at a non-decreasing position, every word-boundary break lands on an
actual space, and no segment edge touches whitespace, which is what the
decidable `splitCleanGo` checks — concatenating the produced row segments,
stripping the hyphen inserted at each mid-word break and reinserting the
one space consumed at each word-boundary break, reconstructs the original
headline exactly, with no character dropped or duplicated; and the matrix
the builder returns is exactly this instrumented trace with the
instrumentation erased.  For headlines with doubled separator spaces the
trace is not clean and reconstruction genuinely fails, because `trim`
silently discards the second space (see the counterexample). -/
theorem C4_split_reconstruction (headline : List Char) (numRows : Nat)
    (h2 : 2 ≤ numRows) (h4 : numRows ≤ 4)
    (hclean : splitCleanGo headline headline.length numRows 0 numRows
        = true) :
    reconInst (splitRowsInst headline headline.length numRows 0 numRows)
        = headline ∧
      splitHeadlineIntoMatrix headline numRows
        = eraseInst (splitRowsInst headline headline.length numRows
            0 numRows) := by
  constructor
  · rw [splitCleanGo_recon headline headline.length numRows numRows 0
      (by omega) hclean]
    exact List.drop_zero headline
  · rw [splitHeadlineIntoMatrix, eraseInst_splitRowsInst]

/-- Witness: the spec's example headline split into 4 rows has a clean
trace, reconstructs exactly, and the builder's matrix is the erased
trace. -/
theorem C4_split_reconstruction_witness :
    (2 ≤ 4 ∧ 4 ≤ 4 ∧
        splitCleanGo c4Example c4Example.length 4 0 4 = true) ∧
      (reconInst (splitRowsInst c4Example c4Example.length 4 0 4)
          = c4Example ∧
        splitHeadlineIntoMatrix c4Example 4
          = eraseInst (splitRowsInst c4Example c4Example.length 4 0 4)) :=
  ⟨⟨by decide, by decide, by decide⟩,
    C4_split_reconstruction c4Example 4 (by decide) (by decide) (by decide)⟩

/-- Counterexample to the claim as stated: the headline "AB  CD" (doubled
separator space) split into 2 rows reconstructs to "AB CD" — `trim`
silently drops the second space, so a character of the headline is lost
and the concatenation is NOT the original headline. -/
theorem C4_double_space_counterexample :
    reconInst (splitRowsInst ['A', 'B', ' ', ' ', 'C', 'D'] 6 2 0 2)
        = ['A', 'B', ' ', 'C', 'D'] ∧
      (['A', 'B', ' ', 'C', 'D'] : List Char)
        ≠ ['A', 'B', ' ', ' ', 'C', 'D'] := by
  decide

end Uutispeli
